import Mathlib

/-!
Verification of the MakeWheel maze generation engine (2D and 3D variants).

This file gives a shallow embedding of the maze modules:
  * `modules/mazes/Maze2D.js` (grid construction, randomized depth-first walk,
    wall emission, validation),
  * `modules/mazes/Maze3D.js` (3D grid, 3D walk with visited-count cutoff,
    connectivity repair, wall and floor emission),
  * `modules/base/BaseMaze.js` (element keys, deduplication, highlight/reset),
  * the maze part of `modules/ui/ShapeControllers.js` (range validation that
    runs before the engine is invoked).

Positions are modelled exactly with rational coordinates.  The JavaScript
`Math.random()` draws are modelled by an arbitrary choice function
`rho : Nat -> Nat`; the index used at the k-th draw is `rho k` reduced
modulo the length of the candidate list, which covers every behaviour of
`Math.floor(Math.random() * len)`.  JavaScript `Map` objects are modelled as
association lists that keep insertion order, with the two insertion styles
used by the source: set-if-absent (the per-pass wall/floor maps) and
replace-in-place (`deduplicateElements`).
-/

namespace MakeWheel

/-- Element tag, mirroring `userData.type` ('wall' / 'floor') plus the sphere
center marker. -/
inductive EKind where
  | wall
  | floor
  | sphere
deriving DecidableEq, Repr

/-- Wall rotations used by the engine: `0` and `MATH.HALF_PI`.  Only these two
values ever occur. -/
inductive Rot where
  | zero
  | halfPi
deriving DecidableEq, Repr

/-- Exact rational arithmetic as unreduced fractions.  The engine only ever
adds, subtracts, multiplies and halves coordinates, so denominators stay
positive and tiny; keeping fractions unreduced makes every computation reduce
inside the kernel (Mathlib's `Rat` normalizes through `Nat.gcd`, which blocks
`decide`).  The value of `⟨n, d⟩` is the real number `n / d`. -/
structure Q where
  num : ℤ
  den : ℤ
deriving DecidableEq, Repr

namespace Q

/-- Value of a `Q` as a Mathlib rational (for algebraic reasoning). -/
def toRat (a : Q) : ℚ := (a.num : ℚ) / (a.den : ℚ)

instance : OfNat Q n := ⟨⟨n, 1⟩⟩
instance : NatCast Q := ⟨fun n => ⟨n, 1⟩⟩
instance : IntCast Q := ⟨fun n => ⟨n, 1⟩⟩
instance : Neg Q := ⟨fun a => ⟨-a.num, a.den⟩⟩
instance : Add Q := ⟨fun a b => ⟨a.num * b.den + b.num * a.den, a.den * b.den⟩⟩
instance : Sub Q := ⟨fun a b => ⟨a.num * b.den - b.num * a.den, a.den * b.den⟩⟩
instance : Mul Q := ⟨fun a b => ⟨a.num * b.num, a.den * b.den⟩⟩
instance : Div Q := ⟨fun a b => ⟨a.num * b.den, a.den * b.num⟩⟩

/-- Numeric equality of two fractions (JavaScript `===` on the values),
valid whenever the denominators are nonzero. -/
def eqb (a b : Q) : Bool := a.num * b.den == b.num * a.den

/-- Numeric `≤` on fraction values, valid for positive denominators (every
value the engine builds keeps a positive denominator). -/
def leb (a b : Q) : Bool := decide (a.num * b.den ≤ b.num * a.den)

/-- Numeric `<` on fraction values, valid for positive denominators. -/
def ltb (a b : Q) : Bool := decide (a.num * b.den < b.num * a.den)

end Q

/-- The numeric value of `rotation.toFixed(4)` scaled by `10^4`:
`(0).toFixed(4) = "0.0000"` and `(Math.PI/2).toFixed(4) = "1.5708"`. -/
def rotKeyVal : Rot → ℤ
  | Rot.zero => 0
  | Rot.halfPi => 15708

/-- A world-space coordinate triple. -/
abbrev Vec3 := Q × Q × Q

/-- Colors from `modules/utils/constants.js`. -/
def COLOR_WALL : ℕ := 0xff0000
def COLOR_FLOOR : ℕ := 0x0066ff
def COLOR_CENTER : ℕ := 0x00ff00
def COLOR_HIGHLIGHT : ℕ := 0xdb63ff
def COLOR_FLOOR_HIGHLIGHT : ℕ := 0x63dbff

/-- A rendered element (wall / floor mesh or the sphere marker): position,
y-rotation, box dimensions, current material color and its `userData` tag. -/
structure Elem where
  kind : EKind
  pos : Vec3
  rot : Rot
  dims : Vec3
  color : ℕ
deriving DecidableEq, Repr

/-- `toFixed(ANIMATION.PRECISION)` with `PRECISION = 4`: the value rounded to
four decimals, returned scaled by `10^4` (so two coordinates get the same
`toFixed(4)` string iff they get the same `round4`).  For a fraction `n/d`
with `d > 0`, `round(n·10^4/d) = ⌊(2·n·10^4 + d) / (2·d)⌋`. -/
def round4 (q : Q) : ℤ := (2 * (q.num * 10000) + q.den) / (2 * q.den)

/-- The key built by `BaseMaze.getElementKey(position, rotation, type)`:
the tag together with all four `toFixed(4)` components. -/
def getElementKey (ty : EKind) (p : Vec3) (r : Rot) : EKind × ℤ × ℤ × ℤ × ℤ :=
  (ty, round4 p.1, round4 p.2.1, round4 p.2.2, rotKeyVal r)

/-- The key used by `BaseMaze.deduplicateElements`: the `toFixed(4)` position
only — no tag and no rotation. -/
def dedupKey (e : Elem) : ℤ × ℤ × ℤ :=
  (round4 e.pos.1, round4 e.pos.2.1, round4 e.pos.2.2)

section JsMap

variable {K V : Type} [DecidableEq K]

/-- A JavaScript `Map` as an insertion-ordered association list. -/
abbrev JsMap (K V : Type) := List (K × V)

/-- `map.has(k)`. -/
def jsHas (m : JsMap K V) (k : K) : Bool := m.any (fun p => p.1 = k)

/-- `map.set(k, v)`: replaces the value of an existing key in place (keeping
its original slot in insertion order), otherwise appends. -/
def jsSet (m : JsMap K V) (k : K) (v : V) : JsMap K V :=
  if jsHas m k then m.map (fun p => if p.1 = k then (k, v) else p)
  else m ++ [(k, v)]

/-- `if (!map.has(k)) map.set(k, v)` — the insertion style of the per-pass
wall/floor maps (`addUniqueWall` / `addUniqueFloor`): first insertion wins. -/
def jsSetIfAbsent (m : JsMap K V) (k : K) (v : V) : JsMap K V :=
  if jsHas m k then m else m ++ [(k, v)]

/-- `Array.from(map.values())`. -/
def jsValues (m : JsMap K V) : List V := m.map Prod.snd

end JsMap

/-- `BaseMaze.deduplicateElements`: rebuild the element list through a map
keyed by the rounded position only; `set` always overwrites, so the later
element with a given rounded position wins, and the surviving slot sits at the
position of the FIRST occurrence of that key. -/
def deduplicateElements (points : List Elem) : List Elem :=
  jsValues (points.foldl (fun m p => jsSet m (dedupKey p) p) [])

/-! ## The 2D engine (`Maze2D.js`) -/

/-- A 2D cell, identified by its `(x, y)` grid coordinates. -/
abbrev Cell2 := ℕ × ℕ

/-- `BaseMaze.isValidCell`: `0 ≤ x < width` and `0 ≤ y < height`. -/
def isValidCell (W H : ℕ) (x y : ℤ) : Bool :=
  0 ≤ y && y < (H : ℤ) && 0 ≤ x && x < (W : ℤ)

/-- The neighbour list of a cell, in source order: left, right, up, down,
keeping only in-bounds cells (`Maze2D.initializeGrid`). -/
def neighbours2 (W H : ℕ) (c : Cell2) : List Cell2 :=
  let x : ℤ := c.1
  let y : ℤ := c.2
  ([(x - 1, y), (x + 1, y), (x, y - 1), (x, y + 1)].filter
      (fun q => isValidCell W H q.1 q.2)).map
    (fun q => (q.1.toNat, q.2.toNat))

/-- The mutable state of the randomized walk: visited cells, the carved
connection pairs (each carve appends both directions), the explicit stack
(top at the head), the current cell, and the number of `Math.random()` draws
made so far. -/
structure Walk2 where
  visited : List Cell2
  conns : List (Cell2 × Cell2)
  stack : List Cell2
  cur : Cell2
  k : ℕ
deriving Repr

/-- `cellA.connections.has(cellB)`. -/
def hasConn2 (conns : List (Cell2 × Cell2)) (a b : Cell2) : Bool :=
  conns.any (fun p => p = (a, b))

/-- One iteration of the `while (stack.length > 0)` loop body of
`Maze2D.generateMazePaths`: either carve to a random unvisited neighbour of
the current cell (pushing it), or pop the stack into the current cell. -/
def dfsStep2 (W H : ℕ) (rho : ℕ → ℕ) (s : Walk2) : Walk2 :=
  let unv := (neighbours2 W H s.cur).filter (fun c => !s.visited.contains c)
  if unv.isEmpty then
    match s.stack with
    | [] => s
    | t :: rest => { s with cur := t, stack := rest }
  else
    let next := unv.getD (rho s.k % unv.length) (0, 0)
    { visited := next :: s.visited
      conns := s.conns ++ [(s.cur, next), (next, s.cur)]
      stack := next :: s.stack
      cur := next
      k := s.k + 1 }

/-- The loop of `Maze2D.generateMazePaths`, driven by the choice function
`rho` and bounded by fuel. -/
def dfsLoop2 (W H : ℕ) (rho : ℕ → ℕ) : ℕ → Walk2 → Walk2
  | 0, s => s
  | fuel + 1, s =>
    if s.stack.isEmpty then s
    else dfsLoop2 W H rho fuel (dfsStep2 W H rho s)

/-- `Maze2D.generateMazePaths`: start at `grid[0][0]`, mark it visited, run
the walk.  The fuel `2*W*H + 2` dominates the loop's iteration count
(at most `W*H - 1` carves plus at most `W*H` pops). -/
def generateMazePaths (W H : ℕ) (rho : ℕ → ℕ) : Walk2 :=
  dfsLoop2 W H rho (2 * W * H + 2)
    { visited := [(0, 0)], conns := [], stack := [(0, 0)], cur := (0, 0), k := 0 }

/-- The cells of a `W × H` grid in scan order (`y` outer, `x` inner). -/
def cells2 (W H : ℕ) : List Cell2 :=
  (List.range H).flatMap (fun y => (List.range W).map (fun x => (x, y)))

/-- Wall description as stored in the `uniqueWalls` map. -/
structure WallDesc where
  pos : Vec3
  rot : Rot
  dims : Vec3
deriving DecidableEq, Repr

/-- `addUniqueWall` in `Maze2D.createMazeWalls`: key by
`getElementKey(position, rotation)` (type defaults to `'wall'`), first
insertion wins. -/
def addUniqueWall (m : JsMap (EKind × ℤ × ℤ × ℤ × ℤ) WallDesc)
    (p : Vec3) (r : Rot) (d : Vec3) : JsMap (EKind × ℤ × ℤ × ℤ × ℤ) WallDesc :=
  jsSetIfAbsent m (getElementKey EKind.wall p r) ⟨p, r, d⟩

/-- The internal-wall emissions of one cell, in source order N, E, S, W:
a wall is emitted on a side iff there is no connection through that side and
the neighbour on that side lies strictly inside the grid. -/
def internalWallsOfCell (il iw ih : Q) (W H : ℕ) (offX offY offZ : Q)
    (conns : List (Cell2 × Cell2)) (c : Cell2)
    (m : JsMap (EKind × ℤ × ℤ × ℤ × ℤ) WallDesc) :
    JsMap (EKind × ℤ × ℤ × ℤ × ℤ) WallDesc :=
  let x := c.1
  let y := c.2
  let worldX : Q := (x : Q) * il + offX + il / 2
  let worldZ : Q := (y : Q) * il + offZ + il / 2
  let hasNorth := y > 0 && hasConn2 conns c (x, y - 1)
  let hasEast := hasConn2 conns c (x + 1, y)
  let hasSouth := hasConn2 conns c (x, y + 1)
  let hasWest := x > 0 && hasConn2 conns c (x - 1, y)
  let m := if !hasNorth && y > 0 then
      addUniqueWall m (worldX, offY, worldZ - il / 2) Rot.halfPi (iw, ih, il) else m
  let m := if !hasEast && x < W - 1 then
      addUniqueWall m (worldX + il / 2, offY, worldZ) Rot.zero (iw, ih, il) else m
  let m := if !hasSouth && y < H - 1 then
      addUniqueWall m (worldX, offY, worldZ + il / 2) Rot.halfPi (iw, ih, il) else m
  let m := if !hasWest && x > 0 then
      addUniqueWall m (worldX - il / 2, offY, worldZ) Rot.zero (iw, ih, il) else m
  m

/-- `Maze2D.createOuterWalls`: one unconditional wall segment per boundary
cell edge, in source order: north row, south row, west column, east column. -/
def createOuterWalls (il iw ih : Q) (W H : ℕ) (offX offY offZ mazeW mazeD : Q)
    (m : JsMap (EKind × ℤ × ℤ × ℤ × ℤ) WallDesc) :
    JsMap (EKind × ℤ × ℤ × ℤ × ℤ) WallDesc :=
  let m := (List.range W).foldl (fun m x =>
    addUniqueWall m ((x : Q) * il + offX + il / 2, offY, offZ) Rot.halfPi (iw, ih, il)) m
  let m := (List.range W).foldl (fun m x =>
    addUniqueWall m ((x : Q) * il + offX + il / 2, offY, offZ + mazeD) Rot.halfPi (iw, ih, il)) m
  let m := (List.range H).foldl (fun m y =>
    addUniqueWall m (offX, offY, (y : Q) * il + offZ + il / 2) Rot.zero (iw, ih, il)) m
  let m := (List.range H).foldl (fun m y =>
    addUniqueWall m (offX + mazeW, offY, (y : Q) * il + offZ + il / 2) Rot.zero (iw, ih, il)) m
  m

/-- `BaseMaze.createWall` (as far as the engine state is concerned): a wall
mesh with the wall base color and the `'wall'` tag. -/
def createWall (d : WallDesc) : Elem :=
  ⟨EKind.wall, d.pos, d.rot, d.dims, COLOR_WALL⟩

/-- `Maze2D.createMazeWalls`: internal walls per cell in scan order, then the
outer walls, then one mesh per surviving map entry in insertion order. -/
def createMazeWalls (il iw ih : Q) (W H : ℕ) (conns : List (Cell2 × Cell2)) :
    List Elem :=
  let mazeW : Q := (W : Q) * il
  let mazeD : Q := (H : Q) * il
  let offX : Q := -(mazeW / 2)
  let offZ : Q := -(mazeD / 2)
  let offY : Q := ih / 2
  let m : JsMap (EKind × ℤ × ℤ × ℤ × ℤ) WallDesc :=
    (cells2 W H).foldl
      (fun m c => internalWallsOfCell il iw ih W H offX offY offZ conns c m) []
  let m := createOuterWalls il iw ih W H offX offY offZ mazeW mazeD m
  (jsValues m).map createWall

/-- The 2D engine state (`Maze2D` instance fields used by the claims). -/
structure Maze2 where
  walls : List Elem
  allPoints : List Elem
  centerPoint : Option Vec3
  gridW : ℕ
  gridH : ℕ
  conns : List (Cell2 × Cell2)
  visitedCells : List Cell2
deriving Repr

/-- A fresh `Maze2D` instance. -/
def Maze2.init : Maze2 := ⟨[], [], none, 0, 0, [], []⟩

/-- Parameters of `Maze2D.generate`. -/
structure Params2 where
  itemLength : Q
  itemWidth : Q
  itemHeight : Q
  width : ℕ
  height : ℕ

/-- `Maze2D.generate`: clear the previous maze, build the grid, run the walk,
emit the walls (which become both `walls` and `allPoints`), create the center
marker (added to the scene but never pushed to `allPoints`), then run the
global dedup pass over `allPoints` and return it. -/
def Maze2.generate (p : Params2) (rho : ℕ → ℕ) (_st : Maze2) : Maze2 :=
  let w := generateMazePaths p.width p.height rho
  let walls := createMazeWalls p.itemLength p.itemWidth p.itemHeight
    p.width p.height w.conns
  { walls := walls
    allPoints := deduplicateElements walls
    centerPoint := some (0, 0, 0)
    gridW := p.width
    gridH := p.height
    conns := w.conns
    visitedCells := w.visited }

/-- `Maze2D.validateInput`. -/
def validateInput2 (p : Params2) : Bool × Option String :=
  if Q.leb p.itemLength 0 || Q.ltb 20 p.itemLength then
    (false, some "Cell length must be between 0 and 20")
  else if Q.leb p.itemWidth 0 || Q.ltb 10 p.itemWidth then
    (false, some "Wall width must be between 0 and 10")
  else if Q.leb p.itemHeight 0 || Q.ltb 20 p.itemHeight then
    (false, some "Wall height must be between 0 and 20")
  else if p.width < 2 || p.width > 50 then
    (false, some "Grid width must be between 2 and 50")
  else if p.height < 2 || p.height > 50 then
    (false, some "Grid height must be between 2 and 50")
  else (true, none)

/-- Strict lexicographic order on cells (y major, x minor), used to count
each undirected connection exactly once. -/
def cellLt (a b : Cell2) : Bool := a.2 < b.2 || (a.2 = b.2 && a.1 < b.1)

/-- The number of undirected connections carved in the grid: every carve adds
both directions, so counting the lexicographically increasing pairs counts
each connection once. -/
def connCount2 (conns : List (Cell2 × Cell2)) : ℕ :=
  (conns.filter (fun p => cellLt p.1 p.2)).length

/-- An element sits on the outer perimeter of the maze iff one of its
horizontal coordinates equals one of the four boundary plane coordinates
used by `createOuterWalls`. -/
def isOuterPos2 (p : Params2) (e : Elem) : Bool :=
  Q.eqb e.pos.1 (-((p.width : Q) * p.itemLength / 2)) ||
  Q.eqb e.pos.1 ((p.width : Q) * p.itemLength / 2) ||
  Q.eqb e.pos.2.2 (-((p.height : Q) * p.itemLength / 2)) ||
  Q.eqb e.pos.2.2 ((p.height : Q) * p.itemLength / 2)

/-! ### Evaluation of the walk on the 2×2 grid, for every choice function -/

theorem dfsLoop2_stop (W H : ℕ) (rho : ℕ → ℕ) (fuel : ℕ) (s : Walk2)
    (h : s.stack = []) : dfsLoop2 W H rho fuel s = s := by
  cases fuel <;> simp [dfsLoop2, h]

theorem dfsLoop2_cons (W H : ℕ) (rho : ℕ → ℕ) (fuel : ℕ) (s : Walk2)
    (h : s.stack ≠ []) :
    dfsLoop2 W H rho (fuel + 1) s = dfsLoop2 W H rho fuel (dfsStep2 W H rho s) := by
  simp [dfsLoop2, h]

/-- On the 2×2 grid, when the first draw selects index 0 the walk carves
`(0,0) → (1,0) → (1,1) → (0,1)`; every later step is forced. -/
theorem run2x2_even (rho : ℕ → ℕ) (h : rho 0 % 2 = 0) :
    generateMazePaths 2 2 rho =
      ⟨[(0,1),(1,1),(1,0),(0,0)],
       [((0,0),(1,0)),((1,0),(0,0)),((1,0),(1,1)),((1,1),(1,0)),((1,1),(0,1)),((0,1),(1,1))],
       [], (0,0), 3⟩ := by
  have e0 : dfsStep2 2 2 rho ⟨[(0,0)], [], [(0,0)], (0,0), 0⟩ =
      ⟨[(1,0),(0,0)], [((0,0),(1,0)),((1,0),(0,0))], [(1,0),(0,0)], (1,0), 1⟩ := by
    simp +decide [dfsStep2, neighbours2, isValidCell, h]
  have l0 : generateMazePaths 2 2 rho =
      dfsLoop2 2 2 rho 9
        ⟨[(1,0),(0,0)], [((0,0),(1,0)),((1,0),(0,0))], [(1,0),(0,0)], (1,0), 1⟩ := by
    rw [generateMazePaths, show (2*2*2+2 : ℕ) = 9 + 1 from rfl,
        dfsLoop2_cons 2 2 rho 9 _ (by simp), e0]
  rw [l0]
  simp +decide [dfsLoop2, dfsStep2, neighbours2, isValidCell, Nat.mod_one]

/-- On the 2×2 grid, when the first draw selects index 1 the walk carves
`(0,0) → (0,1) → (1,1) → (1,0)`; every later step is forced. -/
theorem run2x2_odd (rho : ℕ → ℕ) (h : rho 0 % 2 = 1) :
    generateMazePaths 2 2 rho =
      ⟨[(1,0),(1,1),(0,1),(0,0)],
       [((0,0),(0,1)),((0,1),(0,0)),((0,1),(1,1)),((1,1),(0,1)),((1,1),(1,0)),((1,0),(1,1))],
       [], (0,0), 3⟩ := by
  have e0 : dfsStep2 2 2 rho ⟨[(0,0)], [], [(0,0)], (0,0), 0⟩ =
      ⟨[(0,1),(0,0)], [((0,0),(0,1)),((0,1),(0,0))], [(0,1),(0,0)], (0,1), 1⟩ := by
    simp +decide [dfsStep2, neighbours2, isValidCell, h]
  have l0 : generateMazePaths 2 2 rho =
      dfsLoop2 2 2 rho 9
        ⟨[(0,1),(0,0)], [((0,0),(0,1)),((0,1),(0,0))], [(0,1),(0,0)], (0,1), 1⟩ := by
    rw [generateMazePaths, show (2*2*2+2 : ℕ) = 9 + 1 from rfl,
        dfsLoop2_cons 2 2 rho 9 _ (by simp), e0]
  rw [l0]
  simp +decide [dfsLoop2, dfsStep2, neighbours2, isValidCell, Nat.mod_one]

/-- The concrete parameters of scenario A:
`generate({itemLength:4, itemWidth:1, itemHeight:6, width:2, height:2})`. -/
def params2x2 : Params2 := ⟨4, 1, 6, 2, 2⟩

/-- C2 (counterexample): at the concrete choice function that always picks
index 0, the 2×2 call returns exactly 9 elements, and none of them is the
center marker — the returned list does not contain the marker and does not
have 10 elements, contrary to the claim. -/
theorem C2_counterexample :
    (Maze2.generate params2x2 (fun _ => 0) Maze2.init).allPoints.length = 9 ∧
    ∀ e ∈ (Maze2.generate params2x2 (fun _ => 0) Maze2.init).allPoints,
      e.kind ≠ EKind.sphere := by
  simp only [Maze2.generate, params2x2, run2x2_even (fun _ => 0) rfl]
  decide

/-- C2 (amended): for every sequence of random choices, the 2×2 call produces
exactly 3 internal connections, exactly 1 internal wall and exactly 8
outer-perimeter wall segments — 9 wall elements, which form the whole
returned list; the center marker is created for the scene but is not part of
the returned element list, so the list has 9 elements, not 10. -/
theorem C2_amended (rho : ℕ → ℕ) :
    (Maze2.generate params2x2 rho Maze2.init).allPoints.length = 9 ∧
    connCount2 (Maze2.generate params2x2 rho Maze2.init).conns = 3 ∧
    ((Maze2.generate params2x2 rho Maze2.init).allPoints.filter
        (fun e => isOuterPos2 params2x2 e)).length = 8 ∧
    ((Maze2.generate params2x2 rho Maze2.init).allPoints.filter
        (fun e => !isOuterPos2 params2x2 e)).length = 1 ∧
    ∀ e ∈ (Maze2.generate params2x2 rho Maze2.init).allPoints,
      e.kind = EKind.wall := by
  rcases Nat.mod_two_eq_zero_or_one (rho 0) with h | h
  · simp only [Maze2.generate, params2x2, run2x2_even rho h]
    decide
  · simp only [Maze2.generate, params2x2, run2x2_odd rho h]
    decide

/-! ### The UI layer around the 2D engine (`ShapeControllers.generateMaze`) -/

/-- `validateRange(value, min, max, name)` from `modules/utils/constants.js`:
passes iff `min ≤ value ≤ max` (it throws otherwise). -/
def validateRange (value mn mx : ℤ) : Bool := !(value < mn || value > mx)

/-- `ShapeControllers.generateMaze`: the five parsed integer form fields are
range-checked (cell length 1–20, wall width 1–10, wall height 1–20, grid
width 3–50, grid height 3–50); a failing check throws, which the surrounding
`try` turns into `false` with the maze untouched.  Only when every check
passes is `maze.generateMaze(...)` invoked, which forwards to
`Maze2D.generate`. -/
def uiGenerateMaze (cellLength wallWidth wallHeight gridWidth gridHeight : ℤ)
    (rho : ℕ → ℕ) (st : Maze2) : Maze2 × Bool :=
  if !(validateRange cellLength 1 20 && validateRange wallWidth 1 10 &&
       validateRange wallHeight 1 20 && validateRange gridWidth 3 50 &&
       validateRange gridHeight 3 50) then
    (st, false)
  else
    (Maze2.generate
      ⟨(cellLength : Q), (wallWidth : Q), (wallHeight : Q),
        gridWidth.toNat, gridHeight.toNat⟩ rho st, true)

/-- The scenario-B parameters: the 2D call with `width = 1`. -/
def params1x2 : Params2 := ⟨4, 1, 6, 1, 2⟩

/-- C3 (counterexample): `Maze2D.generate` itself performs no validation.
Starting from a previously generated 2×2 maze (9 walls), calling `generate`
with `width = 1` — a value `validateInput` rejects — is not refused: it tears
the old maze down and builds a 1×2 maze with 6 walls, so the previously
generated state is not left unchanged. -/
theorem C3_counterexample :
    validateInput2 params1x2 =
      (false, some "Grid width must be between 2 and 50") ∧
    (Maze2.generate params1x2 (fun _ => 0)
        (Maze2.generate params2x2 (fun _ => 0) Maze2.init)).allPoints.length = 6 ∧
    (Maze2.generate params2x2 (fun _ => 0) Maze2.init).allPoints.length = 9 ∧
    (Maze2.generate params1x2 (fun _ => 0)
        (Maze2.generate params2x2 (fun _ => 0) Maze2.init)).allPoints ≠
      (Maze2.generate params2x2 (fun _ => 0) Maze2.init).allPoints := by
  refine ⟨by decide, ?_, ?_, ?_⟩ <;> decide

/-- C3 (amended): the rejection of out-of-range parameters does not live in
`Maze2D.generate` (which validates nothing and regenerates unconditionally)
but one layer up: `Maze2D.validateInput` reports `width = 1` as invalid
without touching any state, and the UI wrapper `ShapeControllers.generateMaze`
rejects `gridWidth < 3` before ever invoking the engine, so in that path the
previously generated maze is left completely unchanged. -/
theorem C3_amended :
    validateInput2 params1x2 =
      (false, some "Grid width must be between 2 and 50") ∧
    (∀ (cl ww wh gw gh : ℤ) (rho : ℕ → ℕ) (st : Maze2), gw < 3 →
      uiGenerateMaze cl ww wh gw gh rho st = (st, false)) ∧
    (Maze2.generate params1x2 (fun _ => 0)
        (Maze2.generate params2x2 (fun _ => 0) Maze2.init)).allPoints.length = 6 := by
  refine ⟨by decide, ?_, by decide⟩
  intro cl ww wh gw gh rho st h
  have hgw : validateRange gw 3 50 = false := by
    simp [validateRange]
    omega
  simp [uiGenerateMaze, hgw]

/-- Witness for C3 (amended): the UI wrapper, called with `gridWidth = 1` on
a fresh engine, returns the state unchanged with `false`. -/
theorem C3_amended_witness :
    uiGenerateMaze 4 1 6 1 2 (fun _ => 0) Maze2.init = (Maze2.init, false) :=
  C3_amended.2.1 4 1 6 1 2 (fun _ => 0) Maze2.init (by decide)

/-! ## The 3D engine (`Maze3D.js`) -/

/-- A 3D cell, identified by `(x, y, floor)`. -/
abbrev Cell3 := ℕ × ℕ × ℕ

/-- `Maze3D.isValidCell3D`. -/
def isValidCell3 (W H F : ℕ) (x y fl : ℤ) : Bool :=
  0 ≤ fl && fl < (F : ℤ) && 0 ≤ y && y < (H : ℤ) && 0 ≤ x && x < (W : ℤ)

/-- The 3D neighbour list, in source order: west, east, north, south, down,
up (`Maze3D.initializeGrid3D`). -/
def neighbours3 (W H F : ℕ) (c : Cell3) : List Cell3 :=
  let x : ℤ := c.1
  let y : ℤ := c.2.1
  let fl : ℤ := c.2.2
  ([(x - 1, y, fl), (x + 1, y, fl), (x, y - 1, fl), (x, y + 1, fl),
      (x, y, fl - 1), (x, y, fl + 1)].filter
      (fun q => isValidCell3 W H F q.1 q.2.1 q.2.2)).map
    (fun q => (q.1.toNat, q.2.1.toNat, q.2.2.toNat))

/-- The state of the 3D walk; `cnt` is `visitedCount`. -/
structure Walk3 where
  visited : List Cell3
  conns : List (Cell3 × Cell3)
  stack : List Cell3
  cur : Cell3
  k : ℕ
  cnt : ℕ
deriving Repr

/-- `cellA.connections.has(cellB)` in the 3D grid. -/
def hasConn3 (conns : List (Cell3 × Cell3)) (a b : Cell3) : Bool :=
  conns.any (fun p => p = (a, b))

/-- One iteration of the 3D walk loop body (`Maze3D.generateMazePaths3D`). -/
def dfsStep3 (W H F : ℕ) (rho : ℕ → ℕ) (s : Walk3) : Walk3 :=
  let unv := (neighbours3 W H F s.cur).filter (fun c => !s.visited.contains c)
  if unv.isEmpty then
    match s.stack with
    | [] => s
    | t :: rest => { s with cur := t, stack := rest }
  else
    let next := unv.getD (rho s.k % unv.length) (0, 0, 0)
    { visited := next :: s.visited
      conns := s.conns ++ [(s.cur, next), (next, s.cur)]
      stack := next :: s.stack
      cur := next
      k := s.k + 1
      cnt := s.cnt + 1 }

/-- The loop of `Maze3D.generateMazePaths3D`:
`while (stack.length > 0 && visitedCount < totalCells)`. -/
def dfsLoop3 (W H F total : ℕ) (rho : ℕ → ℕ) : ℕ → Walk3 → Walk3
  | 0, s => s
  | fuel + 1, s =>
    if s.stack.isEmpty || total ≤ s.cnt then s
    else dfsLoop3 W H F total rho fuel (dfsStep3 W H F rho s)

/-- `Maze3D.generateMazePaths3D`: start at `grid[0][0][0]`. -/
def generateMazePaths3 (W H F : ℕ) (rho : ℕ → ℕ) : Walk3 :=
  dfsLoop3 W H F (W * H * F) rho (2 * (W * H * F) + 2)
    { visited := [(0, 0, 0)], conns := [], stack := [(0, 0, 0)],
      cur := (0, 0, 0), k := 0, cnt := 1 }

/-- The cells of the 3D grid in scan order: floor outer, then `y`, then `x` —
the order used both by `ensureFullConnectivity` and by the nearest-cell scan
of `connectIsolatedCell`. -/
def cells3 (W H F : ℕ) : List Cell3 :=
  (List.range F).flatMap (fun fl =>
    (List.range H).flatMap (fun y =>
      (List.range W).map (fun x => (x, y, fl))))

/-- Manhattan distance used by `connectIsolatedCell`. -/
def manhattan (a b : Cell3) : ℕ :=
  (max a.1 b.1 - min a.1 b.1) + (max a.2.1 b.2.1 - min a.2.1 b.2.1) +
    (max a.2.2 b.2.2 - min a.2.2 b.2.2)

/-- The grid state carried through the repair pass. -/
structure Grid3 where
  visited : List Cell3
  conns : List (Cell3 × Cell3)
deriving Repr

/-- `Maze3D.connectIsolatedCell`: scan every cell in `(floor, y, x)` order,
keep the first visited cell at strictly smallest Manhattan distance, then
connect the isolated cell to it bidirectionally and mark it visited. -/
def connectIsolatedCell (W H F : ℕ) (c : Cell3) (g : Grid3) : Grid3 :=
  let best : Option (ℕ × Cell3) :=
    (cells3 W H F).foldl
      (fun best d =>
        if g.visited.contains d then
          let dist := manhattan c d
          match best with
          | none => some (dist, d)
          | some (m, _) => if dist < m then some (dist, d) else best
        else best)
      none
  match best with
  | none => g
  | some (_, nearest) =>
    { visited := c :: g.visited
      conns := g.conns ++ [(c, nearest), (nearest, c)] }

/-- `Maze3D.ensureFullConnectivity`: scan all cells in `(floor, y, x)` order
and force-connect any cell the walk left unvisited. -/
def ensureFullConnectivity (W H F : ℕ) (g : Grid3) : Grid3 :=
  (cells3 W H F).foldl
    (fun g c => if g.visited.contains c then g else connectIsolatedCell W H F c g)
    g

/-- `addUniqueFloor` in `Maze3D.createMazeElements`: key by
`getElementKey(position, rotation, 'floor')`, first insertion wins. -/
def addUniqueFloor (m : JsMap (EKind × ℤ × ℤ × ℤ × ℤ) WallDesc)
    (p : Vec3) (r : Rot) (d : Vec3) : JsMap (EKind × ℤ × ℤ × ℤ × ℤ) WallDesc :=
  jsSetIfAbsent m (getElementKey EKind.floor p r) ⟨p, r, d⟩

/-- The wall and floor-plate emissions of one 3D cell, in source order
N, E, S, W walls then the vertical check: a floor plate is emitted for a cell
not on the top floor with no connection to the cell directly above, at the
cell's `(x, y)` center and `worldY = (floor+1)·itemHeight + itemHeight/2`. -/
def elems3OfCell (il iw ih fl fw : Q) (W H F : ℕ) (offX offZ : Q)
    (conns : List (Cell3 × Cell3)) (c : Cell3)
    (mw mf : JsMap (EKind × ℤ × ℤ × ℤ × ℤ) WallDesc) :
    JsMap (EKind × ℤ × ℤ × ℤ × ℤ) WallDesc × JsMap (EKind × ℤ × ℤ × ℤ × ℤ) WallDesc :=
  let x := c.1
  let y := c.2.1
  let floor := c.2.2
  let offY : Q := (floor : Q) * ih + ih / 2
  let worldX : Q := (x : Q) * il + offX + il / 2
  let worldZ : Q := (y : Q) * il + offZ + il / 2
  let hasNorth := y > 0 && hasConn3 conns c (x, y - 1, floor)
  let hasEast := hasConn3 conns c (x + 1, y, floor)
  let hasSouth := hasConn3 conns c (x, y + 1, floor)
  let hasWest := x > 0 && hasConn3 conns c (x - 1, y, floor)
  let mw := if !hasNorth && y > 0 then
      addUniqueWall mw (worldX, offY, worldZ - il / 2) Rot.halfPi (iw, ih, il) else mw
  let mw := if !hasEast && x < W - 1 then
      addUniqueWall mw (worldX + il / 2, offY, worldZ) Rot.zero (iw, ih, il) else mw
  let mw := if !hasSouth && y < H - 1 then
      addUniqueWall mw (worldX, offY, worldZ + il / 2) Rot.halfPi (iw, ih, il) else mw
  let mw := if !hasWest && x > 0 then
      addUniqueWall mw (worldX - il / 2, offY, worldZ) Rot.zero (iw, ih, il) else mw
  let mf := if floor < F - 1 && !hasConn3 conns c (x, y, floor + 1) then
      addUniqueFloor mf (worldX, ((floor : Q) + 1) * ih + ih / 2, worldZ)
        Rot.zero (fl, 1, fw)
    else mf
  (mw, mf)

/-- `Maze3D.createOuterWalls3D` for one floor level. -/
def createOuterWalls3 (il iw ih : Q) (W H : ℕ) (offX offY offZ mazeW mazeD : Q)
    (m : JsMap (EKind × ℤ × ℤ × ℤ × ℤ) WallDesc) :
    JsMap (EKind × ℤ × ℤ × ℤ × ℤ) WallDesc :=
  createOuterWalls il iw ih W H offX offY offZ mazeW mazeD m

/-- `BaseMaze.createWall` / `Maze3D.createFloor` as elements. -/
def createFloorElem (d : WallDesc) : Elem :=
  ⟨EKind.floor, d.pos, d.rot, d.dims, COLOR_FLOOR⟩

/-- `Maze3D.createMazeElements`: for every floor level, the per-cell internal
walls and floor plates in scan order, then the outer walls of that level;
finally one wall mesh per surviving `uniqueWalls` entry followed by one floor
mesh per surviving `uniqueFloors` entry, in insertion order. -/
def createMazeElements (il iw ih fl fw : Q) (W H F : ℕ)
    (conns : List (Cell3 × Cell3)) : List Elem × List Elem :=
  let mazeW : Q := (W : Q) * il
  let mazeD : Q := (H : Q) * il
  let offX : Q := -(mazeW / 2)
  let offZ : Q := -(mazeD / 2)
  let (mw, mf) :=
    (List.range F).foldl
      (fun (m : JsMap (EKind × ℤ × ℤ × ℤ × ℤ) WallDesc ×
            JsMap (EKind × ℤ × ℤ × ℤ × ℤ) WallDesc) (floor : ℕ) =>
        let offY : Q := (floor : Q) * ih + ih / 2
        let m :=
          ((List.range H).flatMap (fun y => (List.range W).map (fun x => (x, y, floor)))).foldl
            (fun m c => elems3OfCell il iw ih fl fw W H F offX offZ conns c m.1 m.2) m
        (createOuterWalls3 il iw ih W H offX offY offZ mazeW mazeD m.1, m.2))
      ([], [])
  ((jsValues mw).map createWall, (jsValues mf).map createFloorElem)

/-- The 3D engine state (`Maze3D` instance fields used by the claims). -/
structure Maze3 where
  walls : List Elem
  floors : List Elem
  allPoints : List Elem
  centerPoint : Option Vec3
  gridW : ℕ
  gridH : ℕ
  gridF : ℕ
  conns : List (Cell3 × Cell3)
  visitedCells : List Cell3
deriving Repr

/-- A fresh `Maze3D` instance. -/
def Maze3.init : Maze3 := ⟨[], [], [], none, 0, 0, 0, [], []⟩

/-- Parameters of `Maze3D.generate`. -/
structure Params3 where
  itemLength : Q
  itemWidth : Q
  itemHeight : Q
  floorLength : Q
  floorWidth : Q
  width : ℕ
  height : ℕ
  floors : ℕ

/-- `Maze3D.generate`: clear, build the 3D grid, run the walk, run the
connectivity repair, emit walls and floors, create the center marker (scene
only), then dedup `allPoints` and return it. -/
def Maze3.generate (p : Params3) (rho : ℕ → ℕ) (_st : Maze3) : Maze3 :=
  let w := generateMazePaths3 p.width p.height p.floors rho
  let g := ensureFullConnectivity p.width p.height p.floors ⟨w.visited, w.conns⟩
  let wf := createMazeElements p.itemLength p.itemWidth p.itemHeight
    p.floorLength p.floorWidth p.width p.height p.floors g.conns
  { walls := wf.1
    floors := wf.2
    allPoints := deduplicateElements (wf.1 ++ wf.2)
    centerPoint := some (0, 0, 0)
    gridW := p.width
    gridH := p.height
    gridF := p.floors
    conns := g.conns
    visitedCells := g.visited }

/-! ## Highlight and reset (`BaseMaze` with the `Maze2D`/`Maze3D` overrides) -/

/-- `this.allPoints[index]` for an arbitrary (possibly negative) index. -/
def lookupIdx (pts : List Elem) (i : ℤ) : Option Elem :=
  if i < 0 then none else pts.get? i.toNat

/-- `Maze3D.getHighlightColor`: light blue for floors, the shared highlight
color otherwise. -/
def getHighlightColor3 (e : Elem) : ℕ :=
  if e.kind = EKind.floor then COLOR_FLOOR_HIGHLIGHT else COLOR_HIGHLIGHT

/-- `Maze3D.getOriginalColor`: the floor base color for floors, the wall base
color otherwise. -/
def getOriginalColor3 (e : Elem) : ℕ :=
  if e.kind = EKind.floor then COLOR_FLOOR else COLOR_WALL

/-- `BaseMaze.getHighlightColor` (used by the 2D engine). -/
def getHighlightColor2 (_e : Elem) : ℕ := COLOR_HIGHLIGHT

/-- `Maze2D.getOriginalColor`. -/
def getOriginalColor2 (_e : Elem) : ℕ := COLOR_WALL

/-- `BaseMaze.highlightPoint` / `resetPointColor`: when the index denotes an
element of `allPoints`, set that element's material color through the given
color function; otherwise do nothing. -/
def setPointColor (pts : List Elem) (i : ℤ) (colorOf : Elem → ℕ) : List Elem :=
  match lookupIdx pts i with
  | none => pts
  | some e => pts.set i.toNat { e with color := colorOf e }

/-- `highlightPoint` on the 2D engine. -/
def Maze2.highlightPoint (st : Maze2) (i : ℤ) : Maze2 :=
  { st with allPoints := setPointColor st.allPoints i getHighlightColor2 }

/-- `resetPointColor` on the 2D engine. -/
def Maze2.resetPointColor (st : Maze2) (i : ℤ) : Maze2 :=
  { st with allPoints := setPointColor st.allPoints i getOriginalColor2 }

/-- `highlightPoint` on the 3D engine. -/
def Maze3.highlightPoint (st : Maze3) (i : ℤ) : Maze3 :=
  { st with allPoints := setPointColor st.allPoints i getHighlightColor3 }

/-- `resetPointColor` on the 3D engine. -/
def Maze3.resetPointColor (st : Maze3) (i : ℤ) : Maze3 :=
  { st with allPoints := setPointColor st.allPoints i getOriginalColor3 }

/-! ## Deduplication never leaves two elements with the same key -/

/-- Well-formedness of the dedup map: keys are distinct, and every stored
element's rounded position is its own key. -/
def dedupMapWf (m : JsMap (ℤ × ℤ × ℤ) Elem) : Prop :=
  (m.map Prod.fst).Nodup ∧ ∀ p ∈ m, dedupKey p.2 = p.1

theorem jsSet_dedup_wf (m : JsMap (ℤ × ℤ × ℤ) Elem) (v : Elem)
    (h : dedupMapWf m) : dedupMapWf (jsSet m (dedupKey v) v) := by
  rcases h with ⟨h1, h2⟩
  unfold jsSet
  by_cases hk : jsHas m (dedupKey v)
  · simp only [hk, if_true]
    constructor
    · have : (m.map (fun p => if p.1 = dedupKey v then (dedupKey v, v) else p)).map Prod.fst
          = m.map Prod.fst := by
        rw [List.map_map]
        apply List.map_congr_left
        intro p _
        by_cases hp : p.1 = dedupKey v <;> simp [hp]
      rw [this]; exact h1
    · intro p hp
      rcases List.mem_map.1 hp with ⟨q, hq, rfl⟩
      by_cases hq1 : q.1 = dedupKey v <;> simp [hq1, h2 q hq]
  · simp only [hk, Bool.false_eq_true, if_false]
    constructor
    · rw [List.map_append]
      simp only [List.map_cons, List.map_nil]
      rw [List.nodup_append]
      refine ⟨h1, List.nodup_singleton _, ?_⟩
      intro k hkm
      simp only [List.mem_singleton]
      intro hkk
      rcases List.mem_map.1 hkm with ⟨q, hq, hq1⟩
      apply hk
      unfold jsHas
      exact List.any_eq_true.2 ⟨q, hq, by simp [hq1, hkk]⟩
    · intro p hp
      rcases List.mem_append.1 hp with hp | hp
      · exact h2 p hp
      · simp only [List.mem_singleton] at hp
        subst hp
        rfl

theorem dedup_fold_wf (l : List Elem) (m : JsMap (ℤ × ℤ × ℤ) Elem)
    (h : dedupMapWf m) :
    dedupMapWf (l.foldl (fun m p => jsSet m (dedupKey p) p) m) := by
  induction l generalizing m with
  | nil => exact h
  | cons a l ih => exact ih _ (jsSet_dedup_wf m a h)

/-- The global dedup pass leaves no two elements with the same rounded
position. -/
theorem dedup_pairwise (l : List Elem) :
    (deduplicateElements l).Pairwise (fun a b => dedupKey a ≠ dedupKey b) := by
  have h := dedup_fold_wf l [] ⟨List.nodup_nil, by simp⟩
  rcases h with ⟨h1, h2⟩
  unfold deduplicateElements jsValues
  rw [List.pairwise_map]
  have hkeys : List.Pairwise (fun p q : (ℤ × ℤ × ℤ) × Elem => p.1 ≠ q.1)
      (l.foldl (fun m p => jsSet m (dedupKey p) p) []) := List.pairwise_map.mp h1
  exact hkeys.imp_of_mem (fun {p q} hp hq hne => by
    rw [h2 p hp, h2 q hq]; exact hne)

/-- Equal `(kind, rounded position, rounded rotation)` keys force equal
rounded positions. -/
theorem dedupKey_eq_of_elementKey_eq {a b : Elem}
    (h : getElementKey a.kind a.pos a.rot = getElementKey b.kind b.pos b.rot) :
    dedupKey a = dedupKey b := by
  unfold getElementKey at h
  unfold dedupKey
  simp only [Prod.mk.injEq] at h ⊢
  exact ⟨h.2.1, h.2.2.1, h.2.2.2.1⟩

/-- C6: for every generation of either engine, no two elements of the
returned list share a `(kind, position rounded to 4 decimals, rotation
rounded to 4 decimals)` key — the final dedup pass keys by rounded position
alone, which is a strictly coarser key. -/
theorem C6_dedup_keys_distinct :
    (∀ (p : Params2) (rho : ℕ → ℕ) (st : Maze2),
      ((Maze2.generate p rho st).allPoints).Pairwise
        (fun a b => getElementKey a.kind a.pos a.rot ≠ getElementKey b.kind b.pos b.rot)) ∧
    (∀ (p : Params3) (rho : ℕ → ℕ) (st : Maze3),
      ((Maze3.generate p rho st).allPoints).Pairwise
        (fun a b => getElementKey a.kind a.pos a.rot ≠ getElementKey b.kind b.pos b.rot)) := by
  constructor
  · intro p rho st
    simp only [Maze2.generate]
    exact (dedup_pairwise _).imp
      (fun hne h => hne (dedupKey_eq_of_elementKey_eq h))
  · intro p rho st
    simp only [Maze3.generate]
    exact (dedup_pairwise _).imp
      (fun hne h => hne (dedupKey_eq_of_elementKey_eq h))

/-- C9: the final `deduplicateElements` pass keys by rounded position alone —
two elements with the same rounded position collapse to the LATER one even
when their kinds and rotations differ (so a wall and a floor at one rounded
position merge into the later element) — whereas the per-pass
`addUniqueWall` / `addUniqueFloor` maps keep the FIRST insertion for a key. -/
theorem C9_dedup_semantics :
    (∀ a b : Elem, dedupKey a = dedupKey b → deduplicateElements [a, b] = [b]) ∧
    (∀ (p p' : Vec3) (r r' : Rot) (d d' : Vec3),
      getElementKey EKind.wall p r = getElementKey EKind.wall p' r' →
      addUniqueWall (addUniqueWall [] p r d) p' r' d' =
        [(getElementKey EKind.wall p r, ⟨p, r, d⟩)]) ∧
    (∀ (p p' : Vec3) (r r' : Rot) (d d' : Vec3),
      getElementKey EKind.floor p r = getElementKey EKind.floor p' r' →
      addUniqueFloor (addUniqueFloor [] p r d) p' r' d' =
        [(getElementKey EKind.floor p r, ⟨p, r, d⟩)]) := by
  refine ⟨?_, ?_, ?_⟩
  · intro a b h
    simp [deduplicateElements, jsValues, jsSet, jsHas, h]
  · intro p p' r r' d d' h
    simp [addUniqueWall, jsSetIfAbsent, jsHas, h]
  · intro p p' r r' d d' h
    simp [addUniqueFloor, jsSetIfAbsent, jsHas, h]

/-- Witness for C9: a wall and a floor at the same position (different kind,
rotation, dimensions and color) collapse to the floor, which came later. -/
theorem C9_dedup_semantics_witness :
    deduplicateElements
      [⟨EKind.wall, ((⟨1,2⟩ : Q), (⟨3,2⟩ : Q), (⟨5,2⟩ : Q)), Rot.halfPi, (1,1,1), COLOR_WALL⟩,
       ⟨EKind.floor, ((⟨1,2⟩ : Q), (⟨3,2⟩ : Q), (⟨5,2⟩ : Q)), Rot.zero, (2,2,2), COLOR_FLOOR⟩] =
      [⟨EKind.floor, ((⟨1,2⟩ : Q), (⟨3,2⟩ : Q), (⟨5,2⟩ : Q)), Rot.zero, (2,2,2), COLOR_FLOOR⟩] :=
  C9_dedup_semantics.1 _ _ (by decide)

/-- C10: for any index that denotes no element of `allPoints` — negative,
past the end, or into an empty list — `highlightPoint` and `resetPointColor`
of both engines leave the state entirely unchanged and raise no error. -/
theorem C10_invalid_index_noop :
    (∀ (st : Maze2) (i : ℤ), (i < 0 ∨ (st.allPoints.length : ℤ) ≤ i) →
      st.highlightPoint i = st ∧ st.resetPointColor i = st) ∧
    (∀ (st : Maze3) (i : ℤ), (i < 0 ∨ (st.allPoints.length : ℤ) ≤ i) →
      st.highlightPoint i = st ∧ st.resetPointColor i = st) := by
  have key : ∀ (pts : List Elem) (i : ℤ) (f : Elem → ℕ),
      (i < 0 ∨ (pts.length : ℤ) ≤ i) → setPointColor pts i f = pts := by
    intro pts i f h
    unfold setPointColor lookupIdx
    rcases h with h | h
    · simp [h]
    · have h0 : ¬ i < 0 := by omega
      have hl : pts.length ≤ i.toNat := by omega
      simp [h0, List.getElem?_eq_none hl]
  constructor
  · intro st i h
    constructor <;>
      simp [Maze2.highlightPoint, Maze2.resetPointColor, key _ _ _ h]
  · intro st i h
    constructor <;>
      simp [Maze3.highlightPoint, Maze3.resetPointColor, key _ _ _ h]

/-- Witness for C10: a negative index on an empty 2D engine and an
out-of-range index on an empty 3D engine are no-ops. -/
theorem C10_invalid_index_noop_witness :
    Maze2.init.highlightPoint (-1) = Maze2.init ∧
    Maze3.init.resetPointColor 5 = Maze3.init :=
  ⟨(C10_invalid_index_noop.1 Maze2.init (-1) (by decide)).1,
   (C10_invalid_index_noop.2 Maze3.init 5 (by decide)).2⟩

/-! ## Highlight round-trip (C8) -/

theorem set_of_get? {α : Type} (l : List α) (n : ℕ) (e : α)
    (h : l.get? n = some e) : l.set n e = l := by
  apply List.ext_getElem?
  intro m
  by_cases hm : m = n
  · subst hm
    rw [List.getElem?_set_self']
    simp only [List.get?_eq_getElem?] at h
    simp [h]
  · rw [List.getElem?_set_ne (by omega)]

/-- Resetting right after a highlight writes back the element's own color,
provided every element carried its original color beforehand. -/
theorem setPointColor_roundtrip (pts : List Elem) (i : ℤ)
    (orig hi : Elem → ℕ)
    (h1 : ∀ e ∈ pts, orig e = e.color)
    (h2 : ∀ (e : Elem) (c : ℕ), orig ⟨e.kind, e.pos, e.rot, e.dims, c⟩ = orig e)
    (hb : 0 ≤ i) (hlen : i < (pts.length : ℤ)) :
    setPointColor (setPointColor pts i hi) i orig = pts := by
  have hn : i.toNat < pts.length := by omega
  have h0 : ¬ i < 0 := by omega
  obtain ⟨e, he⟩ : ∃ e, pts.get? i.toNat = some e := by
    rw [List.get?_eq_getElem?]
    exact ⟨pts[i.toNat], List.getElem?_eq_getElem hn⟩
  have hmem : e ∈ pts := List.get?_mem he
  unfold setPointColor lookupIdx
  rw [he]
  simp only [h0, if_false]
  have hset : (pts.set i.toNat ⟨e.kind, e.pos, e.rot, e.dims, hi e⟩).get? i.toNat
      = some ⟨e.kind, e.pos, e.rot, e.dims, hi e⟩ := by
    rw [List.get?_eq_getElem?, List.getElem?_set_self']
    rw [List.get?_eq_getElem?] at he
    simp [he]
  rw [hset]
  simp only [List.set_set]
  rw [h2, h1 e hmem]
  exact set_of_get? pts i.toNat e he

theorem dedup_fold_subset (l : List Elem) (S : List Elem)
    (m : JsMap (ℤ × ℤ × ℤ) Elem) (hm : ∀ p ∈ m, p.2 ∈ S)
    (hl : ∀ e ∈ l, e ∈ S) :
    ∀ p ∈ l.foldl (fun m p => jsSet m (dedupKey p) p) m, p.2 ∈ S := by
  induction l generalizing m with
  | nil => exact hm
  | cons a l ih =>
    intro p hp
    refine ih _ ?_ (fun e he => hl e (List.mem_cons_of_mem a he)) p hp
    intro q hq
    unfold jsSet at hq
    by_cases hk : jsHas m (dedupKey a)
    · simp only [hk, if_true] at hq
      rcases List.mem_map.1 hq with ⟨r, hr, rfl⟩
      by_cases hr1 : r.1 = dedupKey a
      · simp only [hr1, if_true]
        exact hl a (List.mem_cons_self a l)
      · simp only [hr1, if_false]
        exact hm r hr
    · simp only [hk, Bool.false_eq_true, if_false] at hq
      rcases List.mem_append.1 hq with hq | hq
      · exact hm q hq
      · simp only [List.mem_singleton] at hq
        subst hq
        exact hl a (List.mem_cons_self a l)

/-- Every survivor of the dedup pass is one of the original elements. -/
theorem dedup_subset (l : List Elem) : ∀ e ∈ deduplicateElements l, e ∈ l := by
  intro e he
  unfold deduplicateElements jsValues at he
  rcases List.mem_map.1 he with ⟨p, hp, rfl⟩
  exact dedup_fold_subset l l [] (by simp) (fun e he => he) p hp

theorem createMazeWalls_mem (il iw ih : Q) (W H : ℕ) (conns : List (Cell2 × Cell2)) :
    ∀ e ∈ createMazeWalls il iw ih W H conns,
      e.kind = EKind.wall ∧ e.color = COLOR_WALL := by
  intro e he
  unfold createMazeWalls at he
  rcases List.mem_map.1 he with ⟨d, _, rfl⟩
  exact ⟨rfl, rfl⟩

theorem createMazeElements_mem (il iw ih fl fw : Q) (W H F : ℕ)
    (conns : List (Cell3 × Cell3)) :
    (∀ e ∈ (createMazeElements il iw ih fl fw W H F conns).1,
      e.kind = EKind.wall ∧ e.color = COLOR_WALL) ∧
    (∀ e ∈ (createMazeElements il iw ih fl fw W H F conns).2,
      e.kind = EKind.floor ∧ e.color = COLOR_FLOOR) := by
  constructor
  · intro e he
    unfold createMazeElements at he
    rcases List.mem_map.1 he with ⟨d, _, rfl⟩
    exact ⟨rfl, rfl⟩
  · intro e he
    unfold createMazeElements at he
    rcases List.mem_map.1 he with ⟨d, _, rfl⟩
    exact ⟨rfl, rfl⟩

/-- Right after a 2D generation every element carries its original color. -/
theorem gen2_pristine (p : Params2) (rho : ℕ → ℕ) (st : Maze2) :
    ∀ e ∈ (Maze2.generate p rho st).allPoints, getOriginalColor2 e = e.color := by
  intro e he
  simp only [Maze2.generate] at he
  have := createMazeWalls_mem p.itemLength p.itemWidth p.itemHeight
    p.width p.height _ e (dedup_subset _ e he)
  rw [getOriginalColor2, this.2]

/-- Right after a 3D generation every element carries its original color. -/
theorem gen3_pristine (p : Params3) (rho : ℕ → ℕ) (st : Maze3) :
    ∀ e ∈ (Maze3.generate p rho st).allPoints, getOriginalColor3 e = e.color := by
  intro e he
  simp only [Maze3.generate] at he
  have hmem := dedup_subset _ e he
  rcases List.mem_append.1 hmem with hw | hf
  · have := (createMazeElements_mem p.itemLength p.itemWidth p.itemHeight
      p.floorLength p.floorWidth p.width p.height p.floors _).1 e hw
    rw [getOriginalColor3, this.1, this.2]
    decide
  · have := (createMazeElements_mem p.itemLength p.itemWidth p.itemHeight
      p.floorLength p.floorWidth p.width p.height p.floors _).2 e hf
    rw [getOriginalColor3, this.1, this.2]
    decide

/-- C8: on a freshly generated maze (2D or 3D), for every valid index,
`resetPointColor` right after `highlightPoint` restores the exact state the
maze had before the highlight — the element gets back precisely its
pre-highlight color. -/
theorem C8_highlight_roundtrip :
    (∀ (p : Params2) (rho : ℕ → ℕ) (st : Maze2) (i : ℤ),
      0 ≤ i → i < ((Maze2.generate p rho st).allPoints.length : ℤ) →
      ((Maze2.generate p rho st).highlightPoint i).resetPointColor i =
        Maze2.generate p rho st) ∧
    (∀ (p : Params3) (rho : ℕ → ℕ) (st : Maze3) (i : ℤ),
      0 ≤ i → i < ((Maze3.generate p rho st).allPoints.length : ℤ) →
      ((Maze3.generate p rho st).highlightPoint i).resetPointColor i =
        Maze3.generate p rho st) := by
  constructor
  · intro p rho st i hb hlen
    show Maze2.resetPointColor _ _ = _
    unfold Maze2.resetPointColor Maze2.highlightPoint
    have := setPointColor_roundtrip (Maze2.generate p rho st).allPoints i
      getOriginalColor2 getHighlightColor2 (gen2_pristine p rho st)
      (fun e c => rfl) hb hlen
    simp only [this]
  · intro p rho st i hb hlen
    show Maze3.resetPointColor _ _ = _
    unfold Maze3.resetPointColor Maze3.highlightPoint
    have := setPointColor_roundtrip (Maze3.generate p rho st).allPoints i
      getOriginalColor3 getHighlightColor3 (gen3_pristine p rho st)
      (fun e c => rfl) hb hlen
    simp only [this]

/-- The concrete 3D call used in scenario C (2×2×2 with integer sizes). -/
def params2x2x2 : Params3 := ⟨4, 1, 6, 4, 4, 2, 2, 2⟩

/-- Witness for C8: a concrete highlight/reset round trip on a generated 2D
maze (wall element) and on a generated 3D maze (floor element at index 20). -/
theorem C8_highlight_roundtrip_witness :
    ((Maze2.generate params2x2 (fun _ => 0) Maze2.init).highlightPoint 0).resetPointColor 0 =
      Maze2.generate params2x2 (fun _ => 0) Maze2.init ∧
    ((Maze3.generate params2x2x2 (fun _ => 0) Maze3.init).highlightPoint 20).resetPointColor 20 =
      Maze3.generate params2x2x2 (fun _ => 0) Maze3.init := by
  constructor
  · exact C8_highlight_roundtrip.1 params2x2 (fun _ => 0) Maze2.init 0
      (by decide) (by decide)
  · exact C8_highlight_roundtrip.2 params2x2x2 (fun _ => 0) Maze3.init 20
      (by decide) (by decide)

end MakeWheel

namespace MakeWheel
namespace Q

@[simp] theorem add_def (a b : Q) :
    a + b = ⟨a.num * b.den + b.num * a.den, a.den * b.den⟩ := rfl
@[simp] theorem sub_def (a b : Q) :
    a - b = ⟨a.num * b.den - b.num * a.den, a.den * b.den⟩ := rfl
@[simp] theorem mul_def (a b : Q) :
    a * b = ⟨a.num * b.num, a.den * b.den⟩ := rfl
@[simp] theorem div_def (a b : Q) :
    a / b = ⟨a.num * b.den, a.den * b.num⟩ := rfl
@[simp] theorem neg_def (a : Q) : -a = ⟨-a.num, a.den⟩ := rfl
@[simp] theorem natCast_num (n : ℕ) : (n : Q).num = (n : ℤ) := rfl
@[simp] theorem natCast_den (n : ℕ) : (n : Q).den = 1 := rfl
@[simp] theorem two_num : (2 : Q).num = 2 := rfl
@[simp] theorem two_den : (2 : Q).den = 1 := rfl
@[simp] theorem one_num : (1 : Q).num = 1 := rfl
@[simp] theorem one_den : (1 : Q).den = 1 := rfl
@[simp] theorem zero_num : (0 : Q).num = 0 := rfl
@[simp] theorem zero_den : (0 : Q).den = 1 := rfl

end Q

theorem round4_den2 (n : ℤ) : round4 ⟨n, 2⟩ = 5000 * n := by
  unfold round4
  show (2 * (n * 10000) + 2) / 4 = 5000 * n
  rw [show 2 * (n * 10000) + 2 = 2 + (5000 * n) * 4 by ring,
    Int.add_mul_ediv_right _ _ (by norm_num)]
  norm_num

theorem round4_den4 (n : ℤ) : round4 ⟨n, 4⟩ = 2500 * n := by
  unfold round4
  show (2 * (n * 10000) + 4) / 8 = 2500 * n
  rw [show 2 * (n * 10000) + 4 = 4 + (2500 * n) * 8 by ring,
    Int.add_mul_ediv_right _ _ (by norm_num)]
  norm_num

theorem round4_den8 (n : ℤ) : round4 ⟨n, 8⟩ = 1250 * n := by
  unfold round4
  show (2 * (n * 10000) + 8) / 16 = 1250 * n
  rw [show 2 * (n * 10000) + 8 = 8 + (1250 * n) * 16 by ring,
    Int.add_mul_ediv_right _ _ (by norm_num)]
  norm_num

def edgeK (il : ℤ) (W : ℕ) (b : ℕ) : ℤ := 5000 * (2 * b * il - W * il)
def centerK (il : ℤ) (W : ℕ) (x : ℕ) : ℤ := 5000 * (2 * x * il - W * il + il)
def levelYK (ih : ℤ) (fl : ℕ) : ℤ := 5000 * (2 * fl * ih + ih)

theorem centerK_ne_edgeK (il : ℤ) (hil : il ≠ 0) (W : ℕ) (x b : ℕ) :
    centerK il W x ≠ edgeK il W b := by
  unfold centerK edgeK
  intro h
  have h1 : (2 * x * il - W * il + il) = (2 * b * il - W * il) :=
    mul_left_cancel₀ (by norm_num : (5000 : ℤ) ≠ 0) h
  have h2 : il * (2 * (x : ℤ) + 1) = il * (2 * b) := by linear_combination h1
  have h3 : (2 * (x : ℤ) + 1) = 2 * b := mul_left_cancel₀ hil h2
  omega

section Keys

variable (il ih : ℕ) (W H F : ℕ)

theorem r4_centerX (x : ℕ) :
    round4 ((x : Q) * (il : Q) + -(((W : Q) * (il : Q)) / 2) + (il : Q) / 2)
      = centerK il W x := by
  simp only [Q.add_def, Q.mul_def, Q.div_def, Q.neg_def, Q.natCast_num, Q.natCast_den,
    Q.two_num, Q.two_den]
  norm_num
  rw [round4_den4]
  unfold centerK
  ring

end Keys

end MakeWheel

namespace MakeWheel

section Keys2

variable (il ih : ℕ) (W H F : ℕ)

theorem r4_edgeX_succ (x : ℕ) :
    round4 (((x : Q) * (il : Q) + -(((W : Q) * (il : Q)) / 2) + (il : Q) / 2) + (il : Q) / 2)
      = edgeK il W (x + 1) := by
  simp only [Q.add_def, Q.mul_def, Q.div_def, Q.neg_def, Q.natCast_num, Q.natCast_den,
    Q.two_num, Q.two_den]
  norm_num
  rw [round4_den8]
  unfold edgeK
  push_cast
  ring

theorem r4_edgeX_self (x : ℕ) :
    round4 (((x : Q) * (il : Q) + -(((W : Q) * (il : Q)) / 2) + (il : Q) / 2) - (il : Q) / 2)
      = edgeK il W x := by
  simp only [Q.add_def, Q.sub_def, Q.mul_def, Q.div_def, Q.neg_def, Q.natCast_num,
    Q.natCast_den, Q.two_num, Q.two_den]
  norm_num
  rw [round4_den8]
  unfold edgeK
  ring

theorem r4_edge0 : round4 (-(((W : Q) * (il : Q)) / 2)) = edgeK il W 0 := by
  simp only [Q.mul_def, Q.div_def, Q.neg_def, Q.natCast_num, Q.natCast_den,
    Q.two_num, Q.two_den]
  norm_num
  rw [round4_den2]
  unfold edgeK
  ring

theorem r4_edgeW : round4 (-(((W : Q) * (il : Q)) / 2) + (W : Q) * (il : Q)) = edgeK il W W := by
  simp only [Q.add_def, Q.mul_def, Q.div_def, Q.neg_def, Q.natCast_num, Q.natCast_den,
    Q.two_num, Q.two_den]
  norm_num
  rw [round4_den2]
  unfold edgeK
  ring

theorem r4_levelY (fl : ℕ) :
    round4 ((fl : Q) * (ih : Q) + (ih : Q) / 2) = levelYK ih fl := by
  simp only [Q.add_def, Q.mul_def, Q.div_def, Q.natCast_num, Q.natCast_den,
    Q.two_num, Q.two_den]
  norm_num
  rw [round4_den2]
  unfold levelYK
  ring

theorem r4_floorY (fl : ℕ) :
    round4 (((fl : Q) + 1) * (ih : Q) + (ih : Q) / 2) = levelYK ih (fl + 1) := by
  simp only [Q.add_def, Q.mul_def, Q.div_def, Q.natCast_num, Q.natCast_den,
    Q.two_num, Q.two_den, Q.one_num, Q.one_den]
  norm_num
  rw [round4_den2]
  unfold levelYK
  push_cast
  ring

end Keys2

end MakeWheel

namespace MakeWheel

section FloorChar

variable (il iw ih fl fw : Q) (W H F : ℕ) (offX offZ : Q) (conns : List (Cell3 × Cell3))

/-- The emission condition of a floor plate for a cell. -/
def floorCond (F : ℕ) (conns : List (Cell3 × Cell3)) (c : Cell3) : Bool :=
  c.2.2 < F - 1 && !hasConn3 conns c (c.1, c.2.1, c.2.2 + 1)

/-- The world position of the floor plate of a cell. -/
def floorPosQ (il ih : Q) (offX offZ : Q) (c : Cell3) : Vec3 :=
  ((c.1 : Q) * il + offX + il / 2,
   ((c.2.2 : Q) + 1) * ih + ih / 2,
   (c.2.1 : Q) * il + offZ + il / 2)

theorem elems3OfCell_snd (c : Cell3)
    (mw mf : JsMap (EKind × ℤ × ℤ × ℤ × ℤ) WallDesc) :
    (elems3OfCell il iw ih fl fw W H F offX offZ conns c mw mf).2 =
      if floorCond F conns c then
        addUniqueFloor mf (floorPosQ il ih offX offZ c) Rot.zero (fl, 1, fw)
      else mf := rfl

end FloorChar

end MakeWheel

namespace MakeWheel

/-- Second components of a pair-valued fold, when the step's second component
only depends on the accumulator's second component. -/
theorem foldl_snd {α β γ : Type} (l : List α) (f : β × γ → α → β × γ) (g : γ → α → γ)
    (h : ∀ m a, (f m a).2 = g m.2 a) (init : β × γ) :
    (l.foldl f init).2 = l.foldl g init.2 := by
  induction l generalizing init with
  | nil => rfl
  | cons a t ih => simp only [List.foldl_cons, ih, h]

/-- The cells of one floor level, in the engine's iteration order. -/
def levelCells (W H : ℕ) (floor : ℕ) : List Cell3 :=
  (List.range H).flatMap (fun y => (List.range W).map (fun x => (x, y, floor)))

/-- One step of the floor-plate accumulation inside `createMazeElements`. -/
def floorStep (il ih fl fw : Q) (F : ℕ) (offX offZ : Q) (conns : List (Cell3 × Cell3))
    (mf : JsMap (EKind × ℤ × ℤ × ℤ × ℤ) WallDesc) (c : Cell3) :
    JsMap (EKind × ℤ × ℤ × ℤ × ℤ) WallDesc :=
  if floorCond F conns c then addUniqueFloor mf (floorPosQ il ih offX offZ c) Rot.zero (fl, 1, fw)
  else mf

/-- The floor-plate map accumulated by `createMazeElements`. -/
def floorMap (il ih fl fw : Q) (W H F : ℕ) (conns : List (Cell3 × Cell3)) :
    JsMap (EKind × ℤ × ℤ × ℤ × ℤ) WallDesc :=
  (List.range F).foldl
    (fun mf floor =>
      (levelCells W H floor).foldl
        (floorStep il ih fl fw F (-((W : Q) * il / 2)) (-((H : Q) * il / 2)) conns) mf)
    []

theorem createMazeElements_floors (il iw ih fl fw : Q) (W H F : ℕ)
    (conns : List (Cell3 × Cell3)) :
    (createMazeElements il iw ih fl fw W H F conns).2 =
      (jsValues (floorMap il ih fl fw W H F conns)).map createFloorElem :=
  congrArg (fun m => (jsValues m).map createFloorElem)
    (foldl_snd (List.range F)
      (fun (m : JsMap (EKind × ℤ × ℤ × ℤ × ℤ) WallDesc ×
            JsMap (EKind × ℤ × ℤ × ℤ × ℤ) WallDesc) (floor : ℕ) =>
        let offY : Q := (floor : Q) * ih + ih / 2
        let m' := (levelCells W H floor).foldl
          (fun m c => elems3OfCell il iw ih fl fw W H F (-((W : Q) * il / 2))
            (-((H : Q) * il / 2)) conns c m.1 m.2) m
        (createOuterWalls3 il iw ih W H (-((W : Q) * il / 2)) offY (-((H : Q) * il / 2))
          ((W : Q) * il) ((H : Q) * il) m'.1, m'.2))
      (fun mf floor =>
        (levelCells W H floor).foldl
          (floorStep il ih fl fw F (-((W : Q) * il / 2)) (-((H : Q) * il / 2)) conns) mf)
      (fun m floor =>
        foldl_snd (levelCells W H floor)
          (fun m c => elems3OfCell il iw ih fl fw W H F (-((W : Q) * il / 2))
            (-((H : Q) * il / 2)) conns c m.1 m.2)
          (floorStep il ih fl fw F (-((W : Q) * il / 2)) (-((H : Q) * il / 2)) conns)
          (fun m c => elems3OfCell_snd il iw ih fl fw W H F (-((W : Q) * il / 2))
            (-((H : Q) * il / 2)) conns c m.1 m.2) m)
      ([], []))

end MakeWheel

namespace MakeWheel

theorem jsHas_append_single {K V : Type} [DecidableEq K] (m : JsMap K V) (k k' : K) (v : V) :
    jsHas (m ++ [(k, v)]) k' = (jsHas m k' || decide (k = k')) := by
  simp [jsHas, List.any_append]

/-- A fold of first-wins conditional insertions whose keys are fresh for the
initial map and pairwise distinct simply appends the selected entries. -/
theorem foldl_setIfAbsent_fresh {α K V : Type} [DecidableEq K] (l : List α)
    (key : α → K) (val : α → V) (cond : α → Bool) (m0 : JsMap K V)
    (hfresh : ∀ a ∈ l, cond a = true → jsHas m0 (key a) = false)
    (hinj : l.Pairwise (fun a b => key a ≠ key b)) :
    l.foldl (fun m a => if cond a then jsSetIfAbsent m (key a) (val a) else m) m0 =
      m0 ++ (l.filter cond).map (fun a => (key a, val a)) := by
  induction l generalizing m0 with
  | nil => simp
  | cons a t ih =>
    rw [List.pairwise_cons] at hinj
    by_cases ha : cond a = true
    · have hf : jsHas m0 (key a) = false := hfresh a (by simp) ha
      have hstep : (if cond a then jsSetIfAbsent m0 (key a) (val a) else m0) =
          m0 ++ [(key a, val a)] := by
        simp [ha, jsSetIfAbsent, hf]
      rw [List.foldl_cons, hstep,
        ih (m0 ++ [(key a, val a)])
          (by
            intro b hb hcb
            rw [jsHas_append_single, hfresh b (List.mem_cons_of_mem _ hb) hcb]
            simpa using (hinj.1 b hb))
          hinj.2]
      simp [List.filter_cons, ha, List.append_assoc]
    · have hstep : (if cond a then jsSetIfAbsent m0 (key a) (val a) else m0) = m0 := by
        simp [ha]
      rw [List.foldl_cons, hstep,
        ih m0 (fun b hb hcb => hfresh b (List.mem_cons_of_mem _ hb) hcb) hinj.2]
      simp [List.filter_cons, ha]

end MakeWheel

namespace MakeWheel

theorem foldl_flatMap {α β γ : Type} (l : List α) (g : α → List β) (f : γ → β → γ)
    (init : γ) :
    (l.flatMap g).foldl f init = l.foldl (fun acc a => (g a).foldl f acc) init := by
  induction l generalizing init with
  | nil => rfl
  | cons a t ih => simp [List.flatMap_cons, List.foldl_append, ih]

theorem flatMap_range_single {β : Type} (n f : ℕ) (hf : f < n) (h : ℕ → List β)
    (hemp : ∀ j, j < n → j ≠ f → h j = []) :
    (List.range n).flatMap h = h f := by
  induction n with
  | zero => omega
  | succ n ih =>
    rw [List.range_succ, List.flatMap_append]
    by_cases hfn : f = n
    · subst hfn
      have hnil : (List.range f).flatMap h = [] :=
        List.flatMap_eq_nil_iff.mpr (fun j hj =>
          hemp j (by have := List.mem_range.mp hj; omega) (by have := List.mem_range.mp hj; omega))
      simp [hnil]
    · rw [ih (by omega) (fun j hj hne => hemp j (by omega) hne)]
      have hnil : h n = [] := hemp n (by omega) (by omega)
      simp [hnil]

theorem foldl_preserve {α β : Type} (P : β → Prop) (l : List α) (f : β → α → β)
    (hf : ∀ b a, a ∈ l → P b → P (f b a)) (init : β) (hinit : P init) :
    P (l.foldl f init) := by
  induction l generalizing init with
  | nil => exact hinit
  | cons a t ih =>
    exact ih (fun b a' ha' hb => hf b a' (List.mem_cons_of_mem _ ha') hb) _
      (hf init a (List.mem_cons_self _ _) hinit)

theorem mem_jsSetIfAbsent {K V : Type} [DecidableEq K] {m : JsMap K V} {k : K} {v : V}
    {p : K × V} (hp : p ∈ jsSetIfAbsent m k v) : p ∈ m ∨ p = (k, v) := by
  unfold jsSetIfAbsent at hp
  split at hp
  · exact Or.inl hp
  · rcases List.mem_append.mp hp with h | h
    · exact Or.inl h
    · simp only [List.mem_singleton] at h
      exact Or.inr h

theorem mem_condAddWall {m : JsMap (EKind × ℤ × ℤ × ℤ × ℤ) WallDesc} {cond : Bool}
    {pos : Vec3} {r : Rot} {d : Vec3} {p : (EKind × ℤ × ℤ × ℤ × ℤ) × WallDesc}
    (hp : p ∈ (if cond then addUniqueWall m pos r d else m)) :
    p ∈ m ∨ p.2 = ⟨pos, r, d⟩ := by
  split at hp
  · rcases mem_jsSetIfAbsent hp with h | h
    · exact Or.inl h
    · exact Or.inr (by rw [h])
  · exact Or.inl hp

end MakeWheel

namespace MakeWheel

theorem jsHas_jsSet {K V : Type} [DecidableEq K] (m : JsMap K V) (k k' : K) (v : V) :
    jsHas (jsSet m k v) k' = (jsHas m k' || decide (k = k')) := by
  unfold jsSet
  split
  · next hk =>
    have hfun : ∀ p : K × V,
        (decide ((if p.1 = k then (k, v) else p).1 = k') : Bool) = decide (p.1 = k') := by
      intro p
      by_cases hp : p.1 = k
      · simp [hp]
      · simp [hp]
    rw [jsHas, List.any_map]
    have : jsHas m k' = m.any (fun p => decide (p.1 = k')) := rfl
    rw [this]
    have hor : m.any ((fun p : K × V => (decide (p.1 = k') : Bool)) ∘
        (fun p => if p.1 = k then (k, v) else p)) = m.any (fun p => decide (p.1 = k')) := by
      apply congrArg (m.any ·)
      funext p
      exact hfun p
    rw [hor]
    show jsHas m k' = (jsHas m k' || decide (k = k'))
    by_cases hkk : k = k'
    · subst hkk
      rw [hk]
      simp
    · simp [hkk]
  · rw [jsHas_append_single]

theorem dedup_fold_keys (l : List Elem) (m : JsMap (ℤ × ℤ × ℤ) Elem) (k : ℤ × ℤ × ℤ)
    (h : jsHas (l.foldl (fun m p => jsSet m (dedupKey p) p) m) k = true) :
    jsHas m k = true ∨ ∃ e ∈ l, dedupKey e = k := by
  induction l generalizing m with
  | nil => exact Or.inl h
  | cons a t ih =>
    rw [List.foldl_cons] at h
    rcases ih _ h with h' | h'
    · rw [jsHas_jsSet] at h'
      rw [Bool.or_eq_true] at h'
      rcases h' with h2 | h2
      · exact Or.inl h2
      · exact Or.inr ⟨a, List.mem_cons_self _ _, of_decide_eq_true h2⟩
    · rcases h' with ⟨e, he, hek⟩
      exact Or.inr ⟨e, List.mem_cons_of_mem _ he, hek⟩

theorem foldl_jsSet_fresh {α K V : Type} [DecidableEq K] (l : List α)
    (key : α → K) (val : α → V) (m0 : JsMap K V)
    (hfresh : ∀ a ∈ l, jsHas m0 (key a) = false)
    (hinj : l.Pairwise (fun a b => key a ≠ key b)) :
    l.foldl (fun m a => jsSet m (key a) (val a)) m0 =
      m0 ++ l.map (fun a => (key a, val a)) := by
  induction l generalizing m0 with
  | nil => simp
  | cons a t ih =>
    rw [List.pairwise_cons] at hinj
    have hstep : jsSet m0 (key a) (val a) = m0 ++ [(key a, val a)] := by
      unfold jsSet
      rw [hfresh a (List.mem_cons_self _ _)]
      simp
    rw [List.foldl_cons, hstep,
      ih (m0 ++ [(key a, val a)])
        (by
          intro b hb
          rw [jsHas_append_single, hfresh b (List.mem_cons_of_mem _ hb)]
          simpa using hinj.1 b hb)
        hinj.2]
    simp [List.append_assoc]

end MakeWheel

namespace MakeWheel

/-- Appending a block of elements whose dedup keys are fresh and pairwise
distinct commutes with the global dedup pass. -/
theorem dedup_append_fresh (A B : List Elem)
    (hfresh : ∀ b ∈ B, ∀ a ∈ A, dedupKey a ≠ dedupKey b)
    (hinj : B.Pairwise (fun a b => dedupKey a ≠ dedupKey b)) :
    deduplicateElements (A ++ B) = deduplicateElements A ++ B := by
  unfold deduplicateElements
  rw [List.foldl_append]
  have hBfresh : ∀ b ∈ B,
      jsHas (A.foldl (fun m p => jsSet m (dedupKey p) p) []) (dedupKey b) = false := by
    intro b hb
    rcases Bool.eq_false_or_eq_true
        (jsHas (A.foldl (fun m p => jsSet m (dedupKey p) p) []) (dedupKey b)) with h | h
    · rcases dedup_fold_keys A [] (dedupKey b) h with h' | h'
      · simp [jsHas] at h'
      · rcases h' with ⟨e, he, hek⟩
        exact absurd hek (hfresh b hb e he)
    · exact h
  rw [foldl_jsSet_fresh B dedupKey (fun b => b)
      (A.foldl (fun m p => jsSet m (dedupKey p) p) []) hBfresh hinj]
  unfold jsValues
  rw [List.map_append, List.map_map]
  have : (Prod.snd ∘ fun a : Elem => (dedupKey a, a)) = id := rfl
  rw [this, List.map_id]

end MakeWheel

namespace MakeWheel

theorem centerK_inj (il : ℤ) (hil : il ≠ 0) (W : ℕ) {x x' : ℕ}
    (h : centerK il W x = centerK il W x') : x = x' := by
  unfold centerK at h
  have h1 : (2 * x * il - W * il + il) = (2 * x' * il - W * il + il) :=
    mul_left_cancel₀ (by norm_num : (5000 : ℤ) ≠ 0) h
  have h2 : il * (2 * (x : ℤ)) = il * (2 * x') := by linear_combination h1
  have h3 : (2 * (x : ℤ)) = 2 * x' := mul_left_cancel₀ hil h2
  omega

theorem levelYK_inj (ih : ℤ) (hih : ih ≠ 0) {f f' : ℕ}
    (h : levelYK ih f = levelYK ih f') : f = f' := by
  unfold levelYK at h
  have h1 : (2 * f * ih + ih) = (2 * f' * ih + ih) :=
    mul_left_cancel₀ (by norm_num : (5000 : ℤ) ≠ 0) h
  have h2 : ih * (2 * (f : ℤ)) = ih * (2 * f') := by linear_combination h1
  have h3 : (2 * (f : ℤ)) = 2 * f' := mul_left_cancel₀ hih h2
  omega

/-- The map key of a cell's floor plate, with the engine's offsets. -/
def floorKeyOf (il ih : ℕ) (W H : ℕ) (c : Cell3) : EKind × ℤ × ℤ × ℤ × ℤ :=
  getElementKey EKind.floor
    (floorPosQ (il : Q) (ih : Q) (-(((W : Q) * (il : Q)) / 2)) (-(((H : Q) * (il : Q)) / 2)) c)
    Rot.zero

/-- The map entry of a cell's floor plate. -/
def floorEntryOf (il ih : ℕ) (fl fw : Q) (W H : ℕ) (c : Cell3) :
    (EKind × ℤ × ℤ × ℤ × ℤ) × WallDesc :=
  (floorKeyOf il ih W H c,
   ⟨floorPosQ (il : Q) (ih : Q) (-(((W : Q) * (il : Q)) / 2)) (-(((H : Q) * (il : Q)) / 2)) c,
    Rot.zero, (fl, 1, fw)⟩)

theorem floorKeyOf_eq (il ih : ℕ) (W H : ℕ) (c : Cell3) :
    floorKeyOf il ih W H c =
      (EKind.floor, centerK il W c.1, levelYK ih (c.2.2 + 1), centerK il H c.2.1, 0) := by
  unfold floorKeyOf getElementKey floorPosQ
  rw [show ((c.1 : Q) * (il : Q) + -(((W : Q) * (il : Q)) / 2) + (il : Q) / 2,
        ((c.2.2 : Q) + 1) * (ih : Q) + (ih : Q) / 2,
        (c.2.1 : Q) * (il : Q) + -(((H : Q) * (il : Q)) / 2) + (il : Q) / 2).1 =
      (c.1 : Q) * (il : Q) + -(((W : Q) * (il : Q)) / 2) + (il : Q) / 2 from rfl]
  rw [r4_centerX il W c.1, r4_floorY ih c.2.2, r4_centerX il H c.2.1]
  rfl

theorem floorKeyOf_inj (il ih : ℕ) (hil : 1 ≤ il) (hih : 1 ≤ ih) (W H : ℕ)
    {c c' : Cell3} (h : floorKeyOf il ih W H c = floorKeyOf il ih W H c') : c = c' := by
  rw [floorKeyOf_eq, floorKeyOf_eq] at h
  simp only [Prod.mk.injEq] at h
  obtain ⟨-, h1, h2, h3, -⟩ := h
  have hilz : (il : ℤ) ≠ 0 := by
    have : il ≠ 0 := by omega
    exact_mod_cast this
  have hihz : (ih : ℤ) ≠ 0 := by
    have : ih ≠ 0 := by omega
    exact_mod_cast this
  have e1 := centerK_inj (il : ℤ) hilz W h1
  have e2 := levelYK_inj (ih : ℤ) hihz h2
  have e3 := centerK_inj (il : ℤ) hilz H h3
  obtain ⟨x, y, f⟩ := c
  obtain ⟨x', y', f'⟩ := c'
  simp only at e1 e2 e3
  simp [e1, e3]
  omega

theorem cells3_nodup (W H F : ℕ) : (cells3 W H F).Nodup := by
  unfold cells3
  rw [List.nodup_flatMap]
  constructor
  · intro fl _
    rw [List.nodup_flatMap]
    constructor
    · intro y _
      refine List.Nodup.map ?_ (List.nodup_range W)
      intro a b hab
      simpa using hab
    · refine (List.pairwise_lt_range H).imp ?_
      intro y y' hlt a ha ha'
      simp only [List.mem_map, List.mem_range] at ha ha'
      obtain ⟨x, -, rfl⟩ := ha
      obtain ⟨x', -, h⟩ := ha'
      simp only [Prod.mk.injEq] at h
      omega
  · refine (List.pairwise_lt_range F).imp ?_
    intro fl fl' hlt a ha ha'
    simp only [List.mem_flatMap, List.mem_map, List.mem_range] at ha ha'
    obtain ⟨y, -, x, -, rfl⟩ := ha
    obtain ⟨y', -, x', -, h⟩ := ha'
    simp only [Prod.mk.injEq] at h
    omega

end MakeWheel

namespace MakeWheel

theorem floorMap_eq (il ih : ℕ) (hil : 1 ≤ il) (hih : 1 ≤ ih) (fl fw : Q) (W H F : ℕ)
    (conns : List (Cell3 × Cell3)) :
    floorMap (il : Q) (ih : Q) fl fw W H F conns =
      ((cells3 W H F).filter (floorCond F conns)).map (floorEntryOf il ih fl fw W H) := by
  have hpair : (cells3 W H F).Pairwise
      (fun a b => floorKeyOf il ih W H a ≠ floorKeyOf il ih W H b) :=
    (cells3_nodup W H F).imp (fun hne hk => hne (floorKeyOf_inj il ih hil hih W H hk))
  have h1 : floorMap (il : Q) (ih : Q) fl fw W H F conns =
      (cells3 W H F).foldl
        (floorStep (il : Q) (ih : Q) fl fw F (-((W : Q) * (il : Q) / 2))
          (-((H : Q) * (il : Q) / 2)) conns) [] :=
    (foldl_flatMap (List.range F) (levelCells W H) _ []).symm
  rw [h1]
  exact foldl_setIfAbsent_fresh (cells3 W H F)
    (floorKeyOf il ih W H)
    (fun c => (⟨floorPosQ (il : Q) (ih : Q) (-((W : Q) * (il : Q) / 2))
        (-((H : Q) * (il : Q) / 2)) c, Rot.zero, (fl, 1, fw)⟩ : WallDesc))
    (floorCond F conns) []
    (fun a _ _ => rfl)
    hpair

theorem createMazeElements_floors_eq (il ih : ℕ) (hil : 1 ≤ il) (hih : 1 ≤ ih)
    (iw fl fw : Q) (W H F : ℕ) (conns : List (Cell3 × Cell3)) :
    (createMazeElements (il : Q) iw (ih : Q) fl fw W H F conns).2 =
      ((cells3 W H F).filter (floorCond F conns)).map
        (fun c => createFloorElem (floorEntryOf il ih fl fw W H c).2) := by
  rw [createMazeElements_floors, floorMap_eq il ih hil hih fl fw W H F conns]
  unfold jsValues
  rw [List.map_map, List.map_map]
  rfl

end MakeWheel

namespace MakeWheel

/-- The wall position invariant of the 3D engine: every wall sits on a grid
boundary plane in `x` or in `z`. -/
def wallPosOk (il : ℕ) (W H : ℕ) (pos : Vec3) : Prop :=
  (∃ b, b ≤ W ∧ round4 pos.1 = edgeK il W b) ∨
  (∃ b, b ≤ H ∧ round4 pos.2.2 = edgeK il H b)

theorem elems3OfCell_fst_ok (il : ℕ) (iw ih fl fw : Q) (W H F : ℕ)
    (conns : List (Cell3 × Cell3)) (c : Cell3) (hx : c.1 < W) (hy : c.2.1 < H)
    (mw mf : JsMap (EKind × ℤ × ℤ × ℤ × ℤ) WallDesc)
    (hmw : ∀ p ∈ mw, wallPosOk il W H p.2.pos) :
    ∀ p ∈ (elems3OfCell (il : Q) iw ih fl fw W H F (-((W : Q) * (il : Q) / 2))
        (-((H : Q) * (il : Q) / 2)) conns c mw mf).1,
      wallPosOk il W H p.2.pos := by
  intro p hp
  rcases mem_condAddWall hp with h3 | hW
  · rcases mem_condAddWall h3 with h2 | hS
    · rcases mem_condAddWall h2 with h1 | hE
      · rcases mem_condAddWall h1 with h0 | hN
        · exact hmw p h0
        · rw [hN]
          exact Or.inr ⟨c.2.1, by omega, r4_edgeX_self il H c.2.1⟩
      · rw [hE]
        exact Or.inl ⟨c.1 + 1, by omega, r4_edgeX_succ il W c.1⟩
    · rw [hS]
      exact Or.inr ⟨c.2.1 + 1, by omega, r4_edgeX_succ il H c.2.1⟩
  · rw [hW]
    exact Or.inl ⟨c.1, by omega, r4_edgeX_self il W c.1⟩

theorem createOuterWalls_ok (il : ℕ) (iw ih : Q) (W H : ℕ) (offY : Q)
    (m : JsMap (EKind × ℤ × ℤ × ℤ × ℤ) WallDesc)
    (hm : ∀ p ∈ m, wallPosOk il W H p.2.pos) :
    ∀ p ∈ createOuterWalls (il : Q) iw ih W H (-((W : Q) * (il : Q) / 2)) offY
        (-((H : Q) * (il : Q) / 2)) ((W : Q) * (il : Q)) ((H : Q) * (il : Q)) m,
      wallPosOk il W H p.2.pos := by
  unfold createOuterWalls
  refine foldl_preserve (fun m : JsMap (EKind × ℤ × ℤ × ℤ × ℤ) WallDesc => ∀ p ∈ m, wallPosOk il W H p.2.pos) _ _ ?_ _
    (foldl_preserve (fun m : JsMap (EKind × ℤ × ℤ × ℤ × ℤ) WallDesc => ∀ p ∈ m, wallPosOk il W H p.2.pos) _ _ ?_ _
      (foldl_preserve (fun m : JsMap (EKind × ℤ × ℤ × ℤ × ℤ) WallDesc => ∀ p ∈ m, wallPosOk il W H p.2.pos) _ _ ?_ _
        (foldl_preserve (fun m : JsMap (EKind × ℤ × ℤ × ℤ × ℤ) WallDesc => ∀ p ∈ m, wallPosOk il W H p.2.pos) _ _ ?_ _ hm)))
  · intro macc y _ hP p hp
    rcases mem_jsSetIfAbsent hp with h | h
    · exact hP p h
    · rw [h]
      exact Or.inl ⟨W, le_refl W, r4_edgeW il W⟩
  · intro macc y _ hP p hp
    rcases mem_jsSetIfAbsent hp with h | h
    · exact hP p h
    · rw [h]
      exact Or.inl ⟨0, Nat.zero_le W, r4_edge0 il W⟩
  · intro macc x _ hP p hp
    rcases mem_jsSetIfAbsent hp with h | h
    · exact hP p h
    · rw [h]
      exact Or.inr ⟨H, le_refl H, r4_edgeW il H⟩
  · intro macc x _ hP p hp
    rcases mem_jsSetIfAbsent hp with h | h
    · exact hP p h
    · rw [h]
      exact Or.inr ⟨0, Nat.zero_le H, r4_edge0 il H⟩

end MakeWheel

namespace MakeWheel

/-- The wall/floor maps accumulated by `createMazeElements`. -/
def wallFloorMaps (il iw ih fl fw : Q) (W H F : ℕ) (conns : List (Cell3 × Cell3)) :
    JsMap (EKind × ℤ × ℤ × ℤ × ℤ) WallDesc × JsMap (EKind × ℤ × ℤ × ℤ × ℤ) WallDesc :=
  (List.range F).foldl
    (fun (m : JsMap (EKind × ℤ × ℤ × ℤ × ℤ) WallDesc ×
          JsMap (EKind × ℤ × ℤ × ℤ × ℤ) WallDesc) (floor : ℕ) =>
      let offY : Q := (floor : Q) * ih + ih / 2
      let m :=
        ((List.range H).flatMap (fun y => (List.range W).map (fun x => (x, y, floor)))).foldl
          (fun m c => elems3OfCell il iw ih fl fw W H F (-((W : Q) * il / 2))
            (-((H : Q) * il / 2)) conns c m.1 m.2) m
      (createOuterWalls3 il iw ih W H (-((W : Q) * il / 2)) offY (-((H : Q) * il / 2))
        ((W : Q) * il) ((H : Q) * il) m.1, m.2))
    ([], [])

theorem createMazeElements_eq_maps (il iw ih fl fw : Q) (W H F : ℕ)
    (conns : List (Cell3 × Cell3)) :
    createMazeElements il iw ih fl fw W H F conns =
      ((jsValues (wallFloorMaps il iw ih fl fw W H F conns).1).map createWall,
       (jsValues (wallFloorMaps il iw ih fl fw W H F conns).2).map createFloorElem) := rfl

theorem wallFloorMaps_fst_ok (il : ℕ) (iw ih fl fw : Q) (W H F : ℕ)
    (conns : List (Cell3 × Cell3)) :
    ∀ p ∈ (wallFloorMaps (il : Q) iw ih fl fw W H F conns).1,
      wallPosOk il W H p.2.pos := by
  unfold wallFloorMaps
  refine foldl_preserve
    (fun m : JsMap (EKind × ℤ × ℤ × ℤ × ℤ) WallDesc ×
        JsMap (EKind × ℤ × ℤ × ℤ × ℤ) WallDesc => ∀ p ∈ m.1, wallPosOk il W H p.2.pos)
    _ _ ?_ _ (by simp)
  intro m floor _ hm
  refine createOuterWalls_ok il iw ih W H _ _ ?_
  refine foldl_preserve
    (fun m : JsMap (EKind × ℤ × ℤ × ℤ × ℤ) WallDesc ×
        JsMap (EKind × ℤ × ℤ × ℤ × ℤ) WallDesc => ∀ p ∈ m.1, wallPosOk il W H p.2.pos)
    _ _ ?_ _ hm
  intro macc c hc hP
  have hxy : c.1 < W ∧ c.2.1 < H := by
    simp only [List.mem_flatMap, List.mem_map, List.mem_range] at hc
    obtain ⟨y, hy, x, hx, rfl⟩ := hc
    exact ⟨hx, hy⟩
  exact elems3OfCell_fst_ok il iw ih fl fw W H F conns c hxy.1 hxy.2 macc.1 macc.2 hP

theorem createMazeElements_fst_ok (il : ℕ) (iw ih fl fw : Q) (W H F : ℕ)
    (conns : List (Cell3 × Cell3)) :
    ∀ e ∈ (createMazeElements (il : Q) iw ih fl fw W H F conns).1,
      wallPosOk il W H e.pos := by
  intro e he
  rw [createMazeElements_eq_maps] at he
  simp only [jsValues, List.map_map, List.mem_map] at he
  obtain ⟨p, hp, rfl⟩ := he
  exact wallFloorMaps_fst_ok il iw ih fl fw W H F conns p hp

end MakeWheel

namespace MakeWheel

theorem floorElem_dedupKey (il ih : ℕ) (fl fw : Q) (W H : ℕ) (c : Cell3) :
    dedupKey (createFloorElem (floorEntryOf il ih fl fw W H c).2) =
      (centerK il W c.1, levelYK ih (c.2.2 + 1), centerK il H c.2.1) := by
  show (round4 ((c.1 : Q) * (il : Q) + -((W : Q) * (il : Q) / 2) + (il : Q) / 2),
        round4 (((c.2.2 : Q) + 1) * (ih : Q) + (ih : Q) / 2),
        round4 ((c.2.1 : Q) * (il : Q) + -((H : Q) * (il : Q) / 2) + (il : Q) / 2)) = _
  rw [r4_centerX il W c.1, r4_floorY ih c.2.2, r4_centerX il H c.2.1]

theorem floorElem_yKey (il ih : ℕ) (fl fw : Q) (W H : ℕ) (c : Cell3) :
    round4 (createFloorElem (floorEntryOf il ih fl fw W H c).2).pos.2.1 =
      levelYK ih (c.2.2 + 1) := by
  show round4 (((c.2.2 : Q) + 1) * (ih : Q) + (ih : Q) / 2) = _
  rw [r4_floorY ih c.2.2]

theorem wall_floor_dedupKey_ne (il ih : ℕ) (hil : 1 ≤ il) (fl fw : Q) (W H : ℕ)
    (e : Elem) (hok : wallPosOk il W H e.pos) (c : Cell3) :
    dedupKey e ≠ dedupKey (createFloorElem (floorEntryOf il ih fl fw W H c).2) := by
  have hilz : (il : ℤ) ≠ 0 := by
    have h0 : il ≠ 0 := by omega
    exact_mod_cast h0
  rw [floorElem_dedupKey]
  intro h
  unfold dedupKey at h
  simp only [Prod.mk.injEq] at h
  obtain ⟨h1, -, h3⟩ := h
  rcases hok with ⟨b, -, hb⟩ | ⟨b, -, hb⟩
  · exact centerK_ne_edgeK (il : ℤ) hilz W c.1 b (h1.symm.trans hb)
  · exact centerK_ne_edgeK (il : ℤ) hilz H c.2.1 b (h3.symm.trans hb)

theorem floorElems_pairwise_key (il ih : ℕ) (hil : 1 ≤ il) (hih : 1 ≤ ih)
    (fl fw : Q) (W H F : ℕ) (conns : List (Cell3 × Cell3)) :
    (((cells3 W H F).filter (floorCond F conns)).map
        (fun c => createFloorElem (floorEntryOf il ih fl fw W H c).2)).Pairwise
      (fun a b => dedupKey a ≠ dedupKey b) := by
  have hilz : (il : ℤ) ≠ 0 := by
    have h0 : il ≠ 0 := by omega
    exact_mod_cast h0
  have hihz : (ih : ℤ) ≠ 0 := by
    have h0 : ih ≠ 0 := by omega
    exact_mod_cast h0
  rw [List.pairwise_map]
  refine ((cells3_nodup W H F).filter _).imp ?_
  intro c c' hne heq
  rw [floorElem_dedupKey, floorElem_dedupKey] at heq
  simp only [Prod.mk.injEq] at heq
  obtain ⟨h1, h2, h3⟩ := heq
  refine hne ?_
  have e1 := centerK_inj (il : ℤ) hilz W h1
  have e2 := levelYK_inj (ih : ℤ) hihz h2
  have e3 := centerK_inj (il : ℤ) hilz H h3
  obtain ⟨x, y, f⟩ := c
  obtain ⟨x', y', f'⟩ := c'
  simp only at e1 e2 e3
  simp only [Prod.mk.injEq]
  omega

/-- The global dedup pass keeps every 3D floor plate: their position keys are
pairwise distinct and never collide with a wall position. -/
theorem allPoints3_eq (il ih : ℕ) (hil : 1 ≤ il) (hih : 1 ≤ ih) (iw fl fw : Q)
    (W H F : ℕ) (conns : List (Cell3 × Cell3)) :
    deduplicateElements ((createMazeElements (il : Q) iw (ih : Q) fl fw W H F conns).1 ++
        (createMazeElements (il : Q) iw (ih : Q) fl fw W H F conns).2) =
      deduplicateElements (createMazeElements (il : Q) iw (ih : Q) fl fw W H F conns).1 ++
        (createMazeElements (il : Q) iw (ih : Q) fl fw W H F conns).2 := by
  apply dedup_append_fresh
  · intro b hb a ha
    rw [createMazeElements_floors_eq il ih hil hih iw fl fw W H F conns] at hb
    obtain ⟨c, hc, rfl⟩ := List.mem_map.mp hb
    exact wall_floor_dedupKey_ne il ih hil fl fw W H a
      (createMazeElements_fst_ok il iw (ih : Q) fl fw W H F conns a ha) c
  · rw [createMazeElements_floors_eq il ih hil hih iw fl fw W H F conns]
    exact floorElems_pairwise_key il ih hil hih fl fw W H F conns

end MakeWheel

namespace MakeWheel

theorem levelCells_eq_map (W H f : ℕ) :
    (List.range H).flatMap (fun y => (List.range W).map (fun x => (x, y, f))) =
      (cells2 W H).map (fun q => (q.1, q.2, f)) := by
  unfold cells2
  rw [List.map_flatMap]
  refine congrArg ((List.range H).flatMap ·) ?_
  funext y
  rw [List.map_map]
  rfl

theorem floors_filter_at_level (il ih : ℕ) (hil : 1 ≤ il) (hih : 1 ≤ ih) (iw fl fw : Q)
    (W H F : ℕ) (conns : List (Cell3 × Cell3)) (f : ℕ) (hf : f + 1 < F) :
    ((createMazeElements (il : Q) iw (ih : Q) fl fw W H F conns).2.filter
        (fun e => e.kind == EKind.floor && round4 e.pos.2.1 == levelYK ih (f + 1))).length =
      ((cells2 W H).filter
        (fun q => !hasConn3 conns (q.1, q.2, f) (q.1, q.2, f + 1))).length := by
  have hihz : (ih : ℤ) ≠ 0 := by
    have h0 : ih ≠ 0 := by omega
    exact_mod_cast h0
  rw [createMazeElements_floors_eq il ih hil hih iw fl fw W H F conns]
  rw [List.filter_map, List.length_map]
  have hcongr : ((cells3 W H F).filter (floorCond F conns)).filter
      ((fun e => e.kind == EKind.floor && round4 e.pos.2.1 == levelYK ih (f + 1)) ∘
        (fun c => createFloorElem (floorEntryOf il ih fl fw W H c).2)) =
      ((cells3 W H F).filter (floorCond F conns)).filter (fun c : Cell3 => c.2.2 == f) := by
    apply List.filter_congr
    intro c hc
    show ((createFloorElem (floorEntryOf il ih fl fw W H c).2).kind == EKind.floor &&
        (round4 (createFloorElem (floorEntryOf il ih fl fw W H c).2).pos.2.1 ==
          levelYK ih (f + 1))) = (c.2.2 == f)
    rw [floorElem_yKey]
    have hkind : ((createFloorElem (floorEntryOf il ih fl fw W H c).2).kind ==
        EKind.floor) = true := rfl
    rw [hkind, Bool.true_and]
    by_cases hcf : c.2.2 = f
    · simp [hcf]
    · have hne : levelYK ih (c.2.2 + 1) ≠ levelYK ih (f + 1) := fun h =>
        hcf (by have := levelYK_inj (ih : ℤ) hihz h; omega)
      simp [hcf, hne]
  rw [hcongr, List.filter_filter]
  have hcongr2 : (cells3 W H F).filter
      (fun c : Cell3 => (c.2.2 == f) && floorCond F conns c) =
      (cells3 W H F).filter
        (fun c : Cell3 => (c.2.2 == f) && !hasConn3 conns c (c.1, c.2.1, c.2.2 + 1)) := by
    apply List.filter_congr
    intro c hc
    by_cases hcf : c.2.2 = f
    · have hb : (c.2.2 == f) = true := by simp [hcf]
      have hlt : decide (c.2.2 < F - 1) = true := by
        simp only [decide_eq_true_eq]
        omega
      simp only [floorCond, hb, hlt, Bool.true_and]
    · have hb : (c.2.2 == f) = false := by simp [hcf]
      simp only [hb, Bool.false_and]
  rw [hcongr2]
  have hlevel : (cells3 W H F).filter
      (fun c : Cell3 => (c.2.2 == f) && !hasConn3 conns c (c.1, c.2.1, c.2.2 + 1)) =
      ((cells2 W H).map (fun q => (q.1, q.2, f))).filter
        (fun c : Cell3 => (c.2.2 == f) && !hasConn3 conns c (c.1, c.2.1, c.2.2 + 1)) := by
    unfold cells3
    rw [List.filter_flatMap]
    rw [flatMap_range_single F f (by omega)
      (fun fl' => ((List.range H).flatMap (fun y =>
        (List.range W).map (fun x => (x, y, fl')))).filter
          (fun c : Cell3 => (c.2.2 == f) && !hasConn3 conns c (c.1, c.2.1, c.2.2 + 1)))
      (by
        intro j hj hjf
        rw [List.filter_eq_nil_iff]
        intro a ha
        simp only [List.mem_flatMap, List.mem_map, List.mem_range] at ha
        obtain ⟨y, -, x, -, rfl⟩ := ha
        simp [hjf])]
    rw [levelCells_eq_map]
  rw [hlevel]
  have hmap : ((cells2 W H).map (fun q => (q.1, q.2, f))).filter
      (fun c : Cell3 => (c.2.2 == f) && !hasConn3 conns c (c.1, c.2.1, c.2.2 + 1)) =
      ((cells2 W H).filter
        (fun q => !hasConn3 conns (q.1, q.2, f) (q.1, q.2, f + 1))).map
          (fun q => (q.1, q.2, f)) := by
    rw [List.filter_map]
    refine congrArg (List.map (fun q : Cell2 => (q.1, q.2, f))) (List.filter_congr ?_)
    intro q _
    simp [Function.comp]
  rw [hmap, List.length_map]

end MakeWheel

namespace MakeWheel

theorem cells2_length (W H : ℕ) : (cells2 W H).length = W * H := by
  unfold cells2
  rw [List.length_flatMap]
  have hmap : (List.range H).map
      (List.length ∘ fun y => (List.range W).map (fun x => (x, y))) =
      List.replicate H W := by
    rw [show (List.length ∘ fun y => (List.range W).map (fun x : ℕ => (x, y))) =
        Function.const ℕ W from by funext y; simp]
    rw [List.map_const, List.length_range]
  rw [hmap, List.sum_replicate]
  simp [Nat.mul_comm]

theorem maze3_complementarity (il ih : ℕ) (hil : 1 ≤ il) (hih : 1 ≤ ih)
    (iw fl fw : Q) (W H F : ℕ) (conns : List (Cell3 × Cell3)) (f : ℕ) (hf : f + 1 < F) :
    ((cells2 W H).filter
        (fun q => hasConn3 conns (q.1, q.2, f) (q.1, q.2, f + 1))).length +
      ((deduplicateElements
          ((createMazeElements (il : Q) iw (ih : Q) fl fw W H F conns).1 ++
           (createMazeElements (il : Q) iw (ih : Q) fl fw W H F conns).2)).filter
        (fun e => e.kind == EKind.floor && round4 e.pos.2.1 == levelYK ih (f + 1))).length =
      W * H := by
  rw [allPoints3_eq il ih hil hih iw fl fw W H F conns]
  rw [List.filter_append, List.length_append]
  have hwalls : (deduplicateElements
      (createMazeElements (il : Q) iw (ih : Q) fl fw W H F conns).1).filter
      (fun e => e.kind == EKind.floor && round4 e.pos.2.1 == levelYK ih (f + 1)) = [] := by
    rw [List.filter_eq_nil_iff]
    intro e he
    have hk := (createMazeElements_mem (il : Q) iw (ih : Q) fl fw W H F conns).1 e
      (dedup_subset _ e he)
    simp [hk.1]
  rw [hwalls]
  rw [floors_filter_at_level il ih hil hih iw fl fw W H F conns f hf]
  simp only [List.length_nil, Nat.zero_add]
  rw [← cells2_length W H]
  exact (List.length_eq_length_filter_add
    (fun q : Cell2 => hasConn3 conns (q.1, q.2, f) (q.1, q.2, f + 1))).symm

end MakeWheel

namespace MakeWheel

theorem floorElem_xKey (il ih : ℕ) (fl fw : Q) (W H : ℕ) (c : Cell3) :
    round4 (createFloorElem (floorEntryOf il ih fl fw W H c).2).pos.1 =
      centerK il W c.1 := by
  show round4 ((c.1 : Q) * (il : Q) + -((W : Q) * (il : Q) / 2) + (il : Q) / 2) = _
  rw [r4_centerX il W c.1]

theorem floorElem_zKey (il ih : ℕ) (fl fw : Q) (W H : ℕ) (c : Cell3) :
    round4 (createFloorElem (floorEntryOf il ih fl fw W H c).2).pos.2.2 =
      centerK il H c.2.1 := by
  show round4 ((c.2.1 : Q) * (il : Q) + -((H : Q) * (il : Q) / 2) + (il : Q) / 2) = _
  rw [r4_centerX il H c.2.1]

theorem length_filter_eq_of_nodup {α : Type} [DecidableEq α] (l : List α)
    (hl : l.Nodup) (a : α) :
    (l.filter (fun b => decide (b = a))).length = if a ∈ l then 1 else 0 := by
  induction l with
  | nil => simp
  | cons b t ih =>
    rw [List.nodup_cons] at hl
    by_cases hba : b = a
    · subst hba
      rw [List.filter_cons]
      simp only [decide_True, if_true, List.length_cons]
      rw [ih hl.2]
      have hbt : b ∉ t := hl.1
      simp [hbt]
    · rw [List.filter_cons]
      simp only [hba, decide_False, Bool.false_eq_true, if_false]
      rw [ih hl.2]
      have hmem : (a ∈ b :: t) ↔ (a ∈ t) := by
        simp [List.mem_cons, Ne.symm hba]
      rw [if_congr hmem rfl rfl]

theorem mem_cells3 (W H F : ℕ) (c : Cell3) :
    c ∈ cells3 W H F ↔ c.1 < W ∧ c.2.1 < H ∧ c.2.2 < F := by
  unfold cells3
  simp only [List.mem_flatMap, List.mem_map, List.mem_range]
  constructor
  · rintro ⟨fl, hfl, y, hy, x, hx, rfl⟩
    exact ⟨hx, hy, hfl⟩
  · rintro ⟨hx, hy, hfl⟩
    exact ⟨c.2.2, hfl, c.2.1, hy, c.1, hx, rfl⟩

end MakeWheel

namespace MakeWheel

theorem maze3_floor_at_cell (il ih : ℕ) (hil : 1 ≤ il) (hih : 1 ≤ ih)
    (iw fl fw : Q) (W H F : ℕ) (conns : List (Cell3 × Cell3)) (x y f : ℕ)
    (hx : x < W) (hy : y < H) (hf : f + 1 < F) :
    ((deduplicateElements
        ((createMazeElements (il : Q) iw (ih : Q) fl fw W H F conns).1 ++
         (createMazeElements (il : Q) iw (ih : Q) fl fw W H F conns).2)).filter
      (fun e => e.kind == EKind.floor &&
        (round4 e.pos.1 == centerK il W x) &&
        (round4 e.pos.2.1 == levelYK ih (f + 1)) &&
        (round4 e.pos.2.2 == centerK il H y))).length =
      if hasConn3 conns (x, y, f) (x, y, f + 1) then 0 else 1 := by
  have hilz : (il : ℤ) ≠ 0 := by
    have h0 : il ≠ 0 := by omega
    exact_mod_cast h0
  have hihz : (ih : ℤ) ≠ 0 := by
    have h0 : ih ≠ 0 := by omega
    exact_mod_cast h0
  rw [allPoints3_eq il ih hil hih iw fl fw W H F conns]
  rw [List.filter_append, List.length_append]
  have hwalls : (deduplicateElements
      (createMazeElements (il : Q) iw (ih : Q) fl fw W H F conns).1).filter
      (fun e => e.kind == EKind.floor &&
        (round4 e.pos.1 == centerK il W x) &&
        (round4 e.pos.2.1 == levelYK ih (f + 1)) &&
        (round4 e.pos.2.2 == centerK il H y)) = [] := by
    rw [List.filter_eq_nil_iff]
    intro e he
    have hk := (createMazeElements_mem (il : Q) iw (ih : Q) fl fw W H F conns).1 e
      (dedup_subset _ e he)
    simp [hk.1]
  rw [hwalls]
  simp only [List.length_nil, Nat.zero_add]
  rw [createMazeElements_floors_eq il ih hil hih iw fl fw W H F conns]
  rw [List.filter_map, List.length_map]
  have hcongr : ((cells3 W H F).filter (floorCond F conns)).filter
      ((fun e => e.kind == EKind.floor &&
          (round4 e.pos.1 == centerK il W x) &&
          (round4 e.pos.2.1 == levelYK ih (f + 1)) &&
          (round4 e.pos.2.2 == centerK il H y)) ∘
        (fun c => createFloorElem (floorEntryOf il ih fl fw W H c).2)) =
      ((cells3 W H F).filter (floorCond F conns)).filter
        (fun c : Cell3 => decide (c = (x, y, f))) := by
    apply List.filter_congr
    intro c hc
    show ((createFloorElem (floorEntryOf il ih fl fw W H c).2).kind == EKind.floor &&
        (round4 (createFloorElem (floorEntryOf il ih fl fw W H c).2).pos.1 ==
          centerK il W x) &&
        (round4 (createFloorElem (floorEntryOf il ih fl fw W H c).2).pos.2.1 ==
          levelYK ih (f + 1)) &&
        (round4 (createFloorElem (floorEntryOf il ih fl fw W H c).2).pos.2.2 ==
          centerK il H y)) = decide (c = (x, y, f))
    rw [floorElem_xKey, floorElem_yKey, floorElem_zKey]
    have hkind : ((createFloorElem (floorEntryOf il ih fl fw W H c).2).kind ==
        EKind.floor) = true := rfl
    rw [hkind, Bool.true_and]
    by_cases hcx : c = (x, y, f)
    · subst hcx
      simp
    · have hne : centerK il W c.1 ≠ centerK il W x ∨
          levelYK ih (c.2.2 + 1) ≠ levelYK ih (f + 1) ∨
          centerK il H c.2.1 ≠ centerK il H y := by
        by_contra hcon
        push_neg at hcon
        obtain ⟨h1, h2, h3⟩ := hcon
        refine hcx ?_
        have e1 := centerK_inj (il : ℤ) hilz W h1
        have e2 := levelYK_inj (ih : ℤ) hihz h2
        have e3 := centerK_inj (il : ℤ) hilz H h3
        obtain ⟨cx, cy, cf⟩ := c
        simp only at e1 e2 e3
        simp only [Prod.mk.injEq]
        omega
      have hfalse : decide (c = (x, y, f)) = false := by simp [hcx]
      rw [hfalse]
      rcases hne with h | h | h
      · simp [h]
      · simp [h]
      · simp [h]
  rw [hcongr]
  rw [length_filter_eq_of_nodup _ ((cells3_nodup W H F).filter _) ((x, y, f) : Cell3)]
  cases hconn : hasConn3 conns (x, y, f) (x, y, f + 1) with
  | false =>
    rw [if_pos, if_neg]
    · simp [hconn]
    · refine List.mem_filter.mpr ⟨(mem_cells3 W H F _).mpr ⟨hx, hy, show f < F by omega⟩, ?_⟩
      show floorCond F conns (x, y, f) = true
      simp only [floorCond, hconn, Bool.not_false, Bool.and_true]
      simp only [decide_eq_true_eq]
      show f < F - 1
      omega
  | true =>
    rw [if_neg, if_pos rfl]
    intro hmem
    have hcond := (List.mem_filter.mp hmem).2
    simp only [floorCond, hconn] at hcond
    simp at hcond

end MakeWheel

namespace MakeWheel

/-- C5: in every generated 3D maze with integer item length/height ≥ 1, for each
pair of adjacent floor levels `f` and `f+1`, the number of vertical connections
plus the number of floor plates at that boundary equals `width · height`. -/
theorem C5_vertical_complementarity (il ih : ℕ) (hil : 1 ≤ il) (hih : 1 ≤ ih)
    (iw fl fw : Q) (W H F : ℕ) (rho : ℕ → ℕ) (f : ℕ) (hf : f + 1 < F) :
    ((cells2 W H).filter (fun q =>
        hasConn3 (Maze3.generate ⟨(il : Q), iw, (ih : Q), fl, fw, W, H, F⟩ rho
            Maze3.init).conns (q.1, q.2, f) (q.1, q.2, f + 1))).length +
      ((Maze3.generate ⟨(il : Q), iw, (ih : Q), fl, fw, W, H, F⟩ rho
          Maze3.init).allPoints.filter
        (fun e => e.kind == EKind.floor && round4 e.pos.2.1 == levelYK ih (f + 1))).length =
      W * H :=
  maze3_complementarity il ih hil hih iw fl fw W H F
    (ensureFullConnectivity W H F ⟨(generateMazePaths3 W H F rho).visited,
      (generateMazePaths3 W H F rho).conns⟩).conns f hf

theorem C5_vertical_complementarity_witness :
    (1 ≤ 4 ∧ 1 ≤ 6 ∧ 0 + 1 < 2) ∧
    ((cells2 2 2).filter (fun q =>
        hasConn3 (Maze3.generate ⟨((4 : ℕ) : Q), 1, ((6 : ℕ) : Q), 4, 4, 2, 2, 2⟩
            (fun _ => 0) Maze3.init).conns (q.1, q.2, 0) (q.1, q.2, 0 + 1))).length +
      ((Maze3.generate ⟨((4 : ℕ) : Q), 1, ((6 : ℕ) : Q), 4, 4, 2, 2, 2⟩
          (fun _ => 0) Maze3.init).allPoints.filter
        (fun e => e.kind == EKind.floor && round4 e.pos.2.1 == levelYK 6 (0 + 1))).length =
      2 * 2 :=
  ⟨⟨by decide, by decide, by decide⟩,
   C5_vertical_complementarity 4 6 (by decide) (by decide) 1 4 4 2 2 2 (fun _ => 0) 0
     (by decide)⟩

/-- C4 counterexample: in the concrete 2×2×2 run with `rho ≡ 0`, the cell
`(0,0,0)` has no vertical connection to `(0,0,1)`, yet no floor plate sits on
the boundary plane `worldY = (floor+1)·itemHeight = 6` (rounded key 60000);
all three floor plates sit at `worldY = (floor+1)·itemHeight + itemHeight/2 = 9`
(rounded key 90000). -/
theorem C4_counterexample :
    hasConn3 (Maze3.generate ⟨((4 : ℕ) : Q), 1, ((6 : ℕ) : Q), 4, 4, 2, 2, 2⟩
        (fun _ => 0) Maze3.init).conns (0, 0, 0) (0, 0, 1) = false ∧
    ((Maze3.generate ⟨((4 : ℕ) : Q), 1, ((6 : ℕ) : Q), 4, 4, 2, 2, 2⟩
        (fun _ => 0) Maze3.init).allPoints.filter
      (fun e => e.kind == EKind.floor && round4 e.pos.2.1 == 60000)).length = 0 ∧
    ((Maze3.generate ⟨((4 : ℕ) : Q), 1, ((6 : ℕ) : Q), 4, 4, 2, 2, 2⟩
        (fun _ => 0) Maze3.init).allPoints.filter
      (fun e => e.kind == EKind.floor && round4 e.pos.2.1 == 90000)).length = 3 := by
  refine ⟨by decide, by decide, by decide⟩

/-- C4 amended: for every cell `(x,y,f)` below the top floor, exactly one floor
plate survives at the cell's `(x,y)` center on the plane
`worldY = (f+1)·itemHeight + itemHeight/2` iff the cell has no vertical
connection to the cell directly above, and none otherwise. -/
theorem C4_amended (il ih : ℕ) (hil : 1 ≤ il) (hih : 1 ≤ ih)
    (iw fl fw : Q) (W H F : ℕ) (rho : ℕ → ℕ) (x y f : ℕ)
    (hx : x < W) (hy : y < H) (hf : f + 1 < F) :
    ((Maze3.generate ⟨(il : Q), iw, (ih : Q), fl, fw, W, H, F⟩ rho
        Maze3.init).allPoints.filter
      (fun e => e.kind == EKind.floor &&
        (round4 e.pos.1 == centerK il W x) &&
        (round4 e.pos.2.1 == levelYK ih (f + 1)) &&
        (round4 e.pos.2.2 == centerK il H y))).length =
      (if hasConn3 (Maze3.generate ⟨(il : Q), iw, (ih : Q), fl, fw, W, H, F⟩ rho
          Maze3.init).conns (x, y, f) (x, y, f + 1) then 0 else 1) :=
  maze3_floor_at_cell il ih hil hih iw fl fw W H F
    (ensureFullConnectivity W H F ⟨(generateMazePaths3 W H F rho).visited,
      (generateMazePaths3 W H F rho).conns⟩).conns x y f hx hy hf

theorem C4_amended_witness :
    (1 ≤ 4 ∧ 1 ≤ 6 ∧ 0 < 2 ∧ 0 + 1 < 2) ∧
    ((Maze3.generate ⟨((4 : ℕ) : Q), 1, ((6 : ℕ) : Q), 4, 4, 2, 2, 2⟩
        (fun _ => 0) Maze3.init).allPoints.filter
      (fun e => e.kind == EKind.floor &&
        (round4 e.pos.1 == centerK 4 2 0) &&
        (round4 e.pos.2.1 == levelYK 6 (0 + 1)) &&
        (round4 e.pos.2.2 == centerK 4 2 0))).length =
      (if hasConn3 (Maze3.generate ⟨((4 : ℕ) : Q), 1, ((6 : ℕ) : Q), 4, 4, 2, 2, 2⟩
          (fun _ => 0) Maze3.init).conns (0, 0, 0) (0, 0, 0 + 1) then 0 else 1) :=
  ⟨⟨by decide, by decide, by decide, by decide⟩,
   C4_amended 4 6 (by decide) (by decide) 1 4 4 2 2 2 (fun _ => 0) 0 0 0
     (by decide) (by decide) (by decide)⟩

end MakeWheel
